import Mathlib

/-!
Verification of the record-matching and status-reconciliation core of the
etiquette-CSN repository.  Strings are modelled as lists of characters;
Python/SQL text operations are translated function by function from
`src/app/io_utils.py`, `src/app/validation.py`, `src/app/imports.py`,
`src/app/db.py` and `gui.py`.
-/

set_option maxHeartbeats 1000000
set_option linter.unusedVariables false

namespace EtiquetteCSN

/-- Strings are modelled as lists of characters. -/
abbrev Str := List Char

/-- Code points counted as whitespace by Python's regex `\s` and
`str.strip()` (ASCII controls, ASCII space and the common Unicode spaces). -/
def spaceNat (n : Nat) : Prop :=
  n = 32 ∨ n = 9 ∨ n = 10 ∨ n = 13 ∨ n = 11 ∨ n = 12 ∨ n = 0x85 ∨
  n = 0xA0 ∨ n = 0x1680 ∨ (0x2000 ≤ n ∧ n ≤ 0x200A) ∨ n = 0x2028 ∨
  n = 0x2029 ∨ n = 0x202F ∨ n = 0x205F ∨ n = 0x3000

instance spaceNat.decPred : DecidablePred spaceNat := fun n => by
  unfold spaceNat; infer_instance

/-- Python regex `\s` / `str.strip()` whitespace test on a character. -/
def isPySpace (c : Char) : Bool :=
  decide (spaceNat c.toNat)

/-- Python `str.upper()` restricted to the ASCII letters; the application only
uppercases text whose accents were already stripped. -/
def pyUpper (c : Char) : Char :=
  if 97 ≤ c.toNat ∧ c.toNat ≤ 122 then Char.ofNat (c.toNat - 32) else c

/-- Python `str.lower()` / SQLite `LOWER()`, restricted to the ASCII letters. -/
def pyLower (c : Char) : Char :=
  if 65 ≤ c.toNat ∧ c.toNat ≤ 90 then Char.ofNat (c.toNat + 32) else c

/-- Canonical (NFD) decompositions used by `unicodedata.normalize("NFD", ·)`
for the accented Latin letters the application handles; each entry maps an
accented letter to its base letter followed by a combining mark. -/
def decompTable : List (Char × List Char) :=
  [('à', ['a', '̀']), ('á', ['a', '́']), ('â', ['a', '̂']),
   ('ã', ['a', '̃']), ('ä', ['a', '̈']), ('å', ['a', '̊']),
   ('ç', ['c', '̧']), ('è', ['e', '̀']), ('é', ['e', '́']),
   ('ê', ['e', '̂']), ('ë', ['e', '̈']), ('ì', ['i', '̀']),
   ('í', ['i', '́']), ('î', ['i', '̂']), ('ï', ['i', '̈']),
   ('ñ', ['n', '̃']), ('ò', ['o', '̀']), ('ó', ['o', '́']),
   ('ô', ['o', '̂']), ('õ', ['o', '̃']), ('ö', ['o', '̈']),
   ('ù', ['u', '̀']), ('ú', ['u', '́']), ('û', ['u', '̂']),
   ('ü', ['u', '̈']), ('ý', ['y', '́']), ('ÿ', ['y', '̈']),
   ('À', ['A', '̀']), ('Á', ['A', '́']), ('Â', ['A', '̂']),
   ('Ã', ['A', '̃']), ('Ä', ['A', '̈']), ('Å', ['A', '̊']),
   ('Ç', ['C', '̧']), ('È', ['E', '̀']), ('É', ['E', '́']),
   ('Ê', ['E', '̂']), ('Ë', ['E', '̈']), ('Ì', ['I', '̀']),
   ('Í', ['I', '́']), ('Î', ['I', '̂']), ('Ï', ['I', '̈']),
   ('Ñ', ['N', '̃']), ('Ò', ['O', '̀']), ('Ó', ['O', '́']),
   ('Ô', ['O', '̂']), ('Õ', ['O', '̃']), ('Ö', ['O', '̈']),
   ('Ù', ['U', '̀']), ('Ú', ['U', '́']), ('Û', ['U', '̂']),
   ('Ü', ['U', '̈']), ('Ý', ['Y', '́'])]

/-- NFD decomposition of one character (identity outside the table). -/
def decompose (c : Char) : List Char :=
  match decompTable.lookup c with
  | some l => l
  | none => [c]

/-- Combining diacritical marks (Unicode category `Mn` in the range handled). -/
def combiningMark (c : Char) : Bool :=
  0x300 ≤ c.toNat && c.toNat ≤ 0x36F

/-- `io_utils.strip_accents`: NFD-normalize and drop the combining marks. -/
def strip_accents (s : Str) : Str :=
  (s.flatMap decompose).filter (fun c => !combiningMark c)

/-- Match the regex `\s*-` at the start of the list and return what follows
the hyphen. -/
def matchSpacesHyphen : Str → Option Str
  | [] => none
  | c :: rest =>
    if c = '-' then some rest
    else if isPySpace c then matchSpacesHyphen rest
    else none

theorem matchSpacesHyphen_length :
    ∀ (l r : Str), matchSpacesHyphen l = some r → r.length < l.length := by
  intro l
  induction l with
  | nil => intro r h; simp [matchSpacesHyphen] at h
  | cons c rest ih =>
    intro r h
    simp only [matchSpacesHyphen] at h
    by_cases hc : c = '-'
    · simp [hc] at h
      subst h; simp
    · by_cases hs : isPySpace c
      · simp [hc, hs] at h
        exact Nat.lt_trans (ih r h) (Nat.lt_succ_self _)
      · simp [hc, hs] at h

/-- Scanner for `re.sub(r"\s*-\s*", "-", s)`: a whitespace character is
deleted exactly when its whitespace run is adjacent to a hyphen (the trailing
`\s*` of a match is tracked by `afterHyphen`, the leading `\s*` by looking
ahead with `matchSpacesHyphen`). -/
def collapseHyphensGo (afterHyphen : Bool) : Str → Str
  | [] => []
  | c :: rest =>
    if c = '-' then '-' :: collapseHyphensGo true rest
    else if isPySpace c then
      if afterHyphen || (matchSpacesHyphen (c :: rest)).isSome then
        collapseHyphensGo afterHyphen rest
      else c :: collapseHyphensGo false rest
    else c :: collapseHyphensGo false rest

/-- `re.sub(r"\s*-\s*", "-", s)`: every whitespace run adjacent to a hyphen is
deleted. -/
def collapseHyphens (s : Str) : Str :=
  collapseHyphensGo false s

/-- Scanner for `re.sub(r"\s+", " ", s)`: `prevSpace` records whether the
previous character belonged to a whitespace run already replaced. -/
def collapseSpacesGo (prevSpace : Bool) : Str → Str
  | [] => []
  | c :: rest =>
    if isPySpace c then
      if prevSpace then collapseSpacesGo true rest
      else ' ' :: collapseSpacesGo true rest
    else c :: collapseSpacesGo false rest

/-- `re.sub(r"\s+", " ", s)`: collapse every whitespace run to one space. -/
def collapseSpaces (s : Str) : Str :=
  collapseSpacesGo false s

/-- Python `str.strip()`. -/
def pyStrip (s : Str) : Str :=
  ((s.dropWhile isPySpace).reverse.dropWhile isPySpace).reverse

/-- `io_utils.normalize_name`: strip accents, collapse spacing around hyphens,
collapse whitespace runs, trim, uppercase. -/
def normalize_name (s : Str) : Str :=
  (pyStrip (collapseSpaces (collapseHyphens (strip_accents s)))).map pyUpper

/-! ### Character-level facts used by the idempotence proof -/

theorem char_eq_iff_toNat {a b : Char} : a = b ↔ a.toNat = b.toNat := by
  constructor
  · rintro rfl; rfl
  · intro h
    apply Char.ext
    exact UInt32.toNat.inj h

theorem isPySpace_iff {c : Char} : isPySpace c = true ↔ spaceNat c.toNat := by
  simp [isPySpace]

theorem pyUpper_toNat (c : Char) :
    (pyUpper c).toNat =
      if 97 ≤ c.toNat ∧ c.toNat ≤ 122 then c.toNat - 32 else c.toNat := by
  unfold pyUpper
  split
  · next h =>
    have hv : (c.toNat - 32).isValidChar := by
      unfold Nat.isValidChar
      left
      omega
    rw [Char.ofNat, dif_pos hv]
    rfl
  · rfl

theorem pyUpper_eq_self (c : Char) (h : ¬(97 ≤ c.toNat ∧ c.toNat ≤ 122)) :
    pyUpper c = c := by
  simp [pyUpper, h]

theorem pyUpper_idem (c : Char) : pyUpper (pyUpper c) = pyUpper c := by
  by_cases h : 97 ≤ c.toNat ∧ c.toNat ≤ 122
  · apply pyUpper_eq_self
    rw [pyUpper_toNat, if_pos h]
    omega
  · simp [pyUpper_eq_self c h]

theorem isPySpace_pyUpper (c : Char) : isPySpace (pyUpper c) = isPySpace c := by
  by_cases h : 97 ≤ c.toNat ∧ c.toNat ≤ 122
  · have h1 : isPySpace (pyUpper c) = false := by
      rw [← Bool.not_eq_true, isPySpace_iff, pyUpper_toNat, if_pos h]
      unfold spaceNat
      omega
    have h2 : isPySpace c = false := by
      rw [← Bool.not_eq_true, isPySpace_iff]
      unfold spaceNat
      omega
    rw [h1, h2]
  · rw [pyUpper_eq_self c h]

theorem pyUpper_hyphen {c : Char} : pyUpper c = '-' ↔ c = '-' := by
  constructor
  · intro h
    by_cases hc : 97 ≤ c.toNat ∧ c.toNat ≤ 122
    · exfalso
      have h45 : (pyUpper c).toNat = 45 := by rw [h]; rfl
      rw [pyUpper_toNat, if_pos hc] at h45
      omega
    · rwa [pyUpper_eq_self c hc] at h
  · rintro rfl; decide

theorem pyUpper_space : pyUpper ' ' = ' ' := by decide

/-- A character that the accent stripper leaves alone. -/
def cleanChar (c : Char) : Bool :=
  decide (decompose c = [c]) && !combiningMark c

theorem cleanChar_iff {c : Char} :
    cleanChar c = true ↔ decompose c = [c] ∧ combiningMark c = false := by
  simp [cleanChar]

theorem lookup_some_mem {l : List (Char × List Char)} {k : Char} {v : List Char}
    (h : l.lookup k = some v) : (k, v) ∈ l := by
  induction l with
  | nil => simp [List.lookup] at h
  | cons p rest ih =>
    obtain ⟨p1, p2⟩ := p
    rw [List.lookup] at h
    by_cases hk : k == p1
    · simp only [hk] at h
      have hkk : k = p1 := by simpa using hk
      have hv : p2 = v := by simpa using h
      rw [hkk, ← hv]
      exact List.mem_cons_self _ _
    · simp only [Bool.not_eq_true] at hk
      rw [hk] at h
      exact List.mem_cons_of_mem _ (ih h)

theorem decompTable_keys_high :
    decompTable.all (fun p => 0xC0 ≤ p.1.toNat) = true := by decide

theorem decompTable_values_clean :
    decompTable.all
      (fun p => p.2.all (fun b => combiningMark b || cleanChar b)) = true := by
  decide

theorem decompose_eq_self_of_low {c : Char} (h : c.toNat < 0xC0) :
    decompose c = [c] := by
  unfold decompose
  cases hl : decompTable.lookup c with
  | none => rfl
  | some l =>
    exfalso
    have hm := lookup_some_mem hl
    have := (List.all_eq_true.mp decompTable_keys_high) _ hm
    simp at this
    omega

theorem cleanChar_of_low {c : Char} (h1 : c.toNat < 0xC0) :
    cleanChar c = true := by
  rw [cleanChar_iff]
  refine ⟨decompose_eq_self_of_low h1, ?_⟩
  simp [combiningMark]
  omega

theorem mem_decompose_clean {c b : Char} (hb : b ∈ decompose c)
    (hm : combiningMark b = false) : cleanChar b = true := by
  unfold decompose at hb
  cases hl : decompTable.lookup c with
  | none =>
    rw [hl] at hb
    simp at hb
    subst hb
    rw [cleanChar_iff]
    refine ⟨?_, hm⟩
    unfold decompose
    rw [hl]
  | some l =>
    rw [hl] at hb
    have hmem := lookup_some_mem hl
    have hall := (List.all_eq_true.mp decompTable_values_clean) _ hmem
    have := (List.all_eq_true.mp hall) _ hb
    simp only [Bool.or_eq_true] at this
    rcases this with h | h
    · rw [h] at hm; cases hm
    · exact h

theorem strip_accents_all_clean (s : Str) :
    ∀ b ∈ strip_accents s, cleanChar b = true := by
  intro b hb
  unfold strip_accents at hb
  rw [List.mem_filter] at hb
  obtain ⟨hb1, hb2⟩ := hb
  rw [List.mem_flatMap] at hb1
  obtain ⟨c, _, hcb⟩ := hb1
  exact mem_decompose_clean hcb (by simpa using hb2)

theorem strip_accents_of_clean {l : Str}
    (h : ∀ b ∈ l, cleanChar b = true) : strip_accents l = l := by
  induction l with
  | nil => rfl
  | cons c rest ih =>
    have hc := cleanChar_iff.mp (h c (List.mem_cons_self _ _))
    unfold strip_accents
    rw [List.flatMap_cons, List.filter_append, hc.1]
    have : List.filter (fun c => !combiningMark c) [c] = [c] := by
      simp [hc.2]
    rw [this]
    have ihr : strip_accents rest = rest :=
      ih (fun b hb => h b (List.mem_cons_of_mem _ hb))
    unfold strip_accents at ihr
    rw [ihr]
    rfl

theorem cleanChar_pyUpper {c : Char} (h : cleanChar c = true) :
    cleanChar (pyUpper c) = true := by
  by_cases hc : 97 ≤ c.toNat ∧ c.toNat ≤ 122
  · rw [cleanChar_iff]
    have ht : (pyUpper c).toNat = c.toNat - 32 := by
      rw [pyUpper_toNat, if_pos hc]
    constructor
    · exact decompose_eq_self_of_low (by omega)
    · simp [combiningMark]
      omega
  · rwa [pyUpper_eq_self c hc]

theorem cleanChar_hyphen : cleanChar '-' = true := by decide

theorem cleanChar_space : cleanChar ' ' = true := by decide

/-! ### Fixed points of the two regex substitutions -/

/-- Adjacent characters compatible with `\s*-\s*` having no whitespace to eat:
no whitespace touches a hyphen. -/
def hyOk (a b : Char) : Prop :=
  ¬(isPySpace a = true ∧ b = '-') ∧ ¬(a = '-' ∧ isPySpace b = true)

/-- Adjacent characters compatible with `\s+` having nothing to collapse:
no two adjacent whitespace characters. -/
def spOk (a b : Char) : Prop :=
  ¬(isPySpace a = true ∧ isPySpace b = true)

theorem hyOk_symm {a b : Char} (h : hyOk a b) : hyOk b a := by
  obtain ⟨h1, h2⟩ := h
  exact ⟨fun hc => h2 ⟨hc.2, hc.1⟩, fun hc => h1 ⟨hc.2, hc.1⟩⟩

theorem spOk_symm {a b : Char} (h : spOk a b) : spOk b a := by
  exact fun hc => h ⟨hc.2, hc.1⟩

theorem isPySpace_hyphen : isPySpace '-' = false := by decide

theorem not_hyphen_of_space {c : Char} (h : isPySpace c = true) : c ≠ '-' := by
  intro he
  rw [he, isPySpace_hyphen] at h
  cases h

theorem matchSpacesHyphen_none_of_chain :
    ∀ (l : Str) (c : Char), List.Chain' hyOk (c :: l) → isPySpace c = true →
      matchSpacesHyphen (c :: l) = none := by
  intro l
  induction l with
  | nil =>
    intro c _ hsp
    unfold matchSpacesHyphen
    rw [if_neg (not_hyphen_of_space hsp), if_pos hsp]
    rfl
  | cons d r ih =>
    intro c hch hsp
    unfold matchSpacesHyphen
    rw [if_neg (not_hyphen_of_space hsp), if_pos hsp]
    have hpair : hyOk c d := (List.chain'_cons.mp hch).1
    by_cases hd : isPySpace d
    · exact ih d (List.chain'_cons.mp hch).2 hd
    · have hdne : d ≠ '-' := fun he => hpair.1 ⟨hsp, he⟩
      unfold matchSpacesHyphen
      rw [if_neg hdne, if_neg hd]

theorem goHy_head_of_match_none {l : Str}
    (h : matchSpacesHyphen l = none) :
    ∀ c, (collapseHyphensGo false l).head? = some c → c ≠ '-' := by
  intro c hc
  cases l with
  | nil => simp [collapseHyphensGo] at hc
  | cons d rest =>
    have hd : d ≠ '-' := by
      intro he
      unfold matchSpacesHyphen at h
      rw [if_pos he] at h
      cases h
    unfold collapseHyphensGo at hc
    rw [if_neg hd] at hc
    by_cases hs : isPySpace d
    · have hm : matchSpacesHyphen (d :: rest) = none := by
        unfold matchSpacesHyphen
        rw [if_neg hd, if_pos hs]
        unfold matchSpacesHyphen at h
        rw [if_neg hd, if_pos hs] at h
        exact h
      rw [if_pos hs, hm] at hc
      simp at hc
      rw [← hc]
      exact hd
    · rw [if_neg hs] at hc
      simp at hc
      rw [← hc]
      exact hd

theorem goHy_true_head_not_space :
    ∀ (l : Str) (c : Char), (collapseHyphensGo true l).head? = some c →
      isPySpace c = false := by
  intro l
  induction l with
  | nil => intro c hc; simp [collapseHyphensGo] at hc
  | cons d rest ih =>
    intro c hc
    unfold collapseHyphensGo at hc
    by_cases hd : d = '-'
    · rw [if_pos hd] at hc
      simp at hc
      rw [← hc]
      exact isPySpace_hyphen
    · rw [if_neg hd] at hc
      by_cases hs : isPySpace d
      · rw [if_pos hs] at hc
        simp at hc
        exact ih c hc
      · rw [if_neg hs] at hc
        simp at hc
        rw [← hc, ← Bool.not_eq_true]
        exact hs

theorem chain'_goHy :
    ∀ (l : Str) (after : Bool), List.Chain' hyOk (collapseHyphensGo after l) := by
  intro l
  induction l with
  | nil => intro after; simp [collapseHyphensGo]
  | cons c rest ih =>
    intro after
    unfold collapseHyphensGo
    by_cases hc : c = '-'
    · rw [if_pos hc]
      rw [List.chain'_cons']
      refine ⟨?_, ih true⟩
      intro b hb
      have hbs := goHy_true_head_not_space rest b hb
      constructor
      · intro hx
        rw [isPySpace_hyphen] at hx
        cases hx.1
      · intro hx
        rw [hbs] at hx
        cases hx.2
    · rw [if_neg hc]
      by_cases hs : isPySpace c
      · rw [if_pos hs]
        by_cases hm : (matchSpacesHyphen (c :: rest)).isSome
        · simp only [hm, Bool.or_true]
          exact ih after
        · have hor : (after || (matchSpacesHyphen (c :: rest)).isSome) = after := by
            simp only [Bool.not_eq_true] at hm
            rw [hm, Bool.or_false]
          rw [hor]
          cases after with
          | true => exact ih true
          | false =>
            rw [if_neg (by simp : ¬(false = true))]
            rw [List.chain'_cons']
            refine ⟨?_, ih false⟩
            intro b hb
            have hmn : matchSpacesHyphen rest = none := by
              rw [← Option.not_isSome_iff_eq_none]
              intro hcon
              apply hm
              unfold matchSpacesHyphen
              rw [if_neg hc, if_pos hs]
              exact hcon
            constructor
            · intro hx
              exact goHy_head_of_match_none hmn b hb hx.2
            · intro hx
              exact hc hx.1
      · rw [if_neg hs]
        rw [List.chain'_cons']
        refine ⟨?_, ih false⟩
        intro b _
        constructor
        · intro hx
          rw [hx.1] at hs
          cases hs rfl
        · intro hx
          exact hc hx.1

theorem goHy_eq_self :
    ∀ (l : Str), List.Chain' hyOk l → ∀ (after : Bool),
      (after = true → ∀ c, l.head? = some c → isPySpace c = false) →
      collapseHyphensGo after l = l := by
  intro l
  induction l with
  | nil => intro _ after _; rfl
  | cons c rest ih =>
    intro hch after hhead
    unfold collapseHyphensGo
    have htail : List.Chain' hyOk rest := hch.tail
    by_cases hc : c = '-'
    · rw [if_pos hc]
      rw [hc]
      congr 1
      apply ih htail true
      intro _ d hd
      cases rest with
      | nil => simp at hd
      | cons e r =>
        simp at hd
        have hpair : hyOk c e := (List.chain'_cons.mp hch).1
        rw [← hd, ← Bool.not_eq_true]
        intro hsp
        exact hpair.2 ⟨hc, hsp⟩
    · rw [if_neg hc]
      by_cases hs : isPySpace c
      · rw [if_pos hs]
        have hafter : after = false := by
          cases after with
          | false => rfl
          | true =>
            have := hhead rfl c rfl
            rw [hs] at this
            cases this
        have hmn : matchSpacesHyphen (c :: rest) = none :=
          matchSpacesHyphen_none_of_chain rest c hch hs
        rw [hafter, hmn]
        simp only [Option.isSome_none, Bool.or_false, if_neg Bool.false_ne_true]
        congr 1
        exact ih htail false (by intro h; cases h)
      · rw [if_neg hs]
        congr 1
        exact ih htail false (by intro h; cases h)

theorem mem_goHy :
    ∀ (l : Str) (after : Bool) (c : Char),
      c ∈ collapseHyphensGo after l → c = '-' ∨ c ∈ l := by
  intro l
  induction l with
  | nil => intro after c hc; simp [collapseHyphensGo] at hc
  | cons d rest ih =>
    intro after c hc
    unfold collapseHyphensGo at hc
    by_cases hd : d = '-'
    · rw [if_pos hd] at hc
      rcases List.mem_cons.mp hc with h | h
      · left; exact h
      · rcases ih true c h with h' | h'
        · left; exact h'
        · right; exact List.mem_cons_of_mem _ h'
    · rw [if_neg hd] at hc
      by_cases hs : isPySpace d
      · rw [if_pos hs] at hc
        by_cases hor : (after || (matchSpacesHyphen (d :: rest)).isSome) = true
        · rw [if_pos hor] at hc
          rcases ih after c hc with h' | h'
          · left; exact h'
          · right; exact List.mem_cons_of_mem _ h'
        · rw [if_neg hor] at hc
          rcases List.mem_cons.mp hc with h | h
          · right; rw [h]; exact List.mem_cons_self _ _
          · rcases ih false c h with h' | h'
            · left; exact h'
            · right; exact List.mem_cons_of_mem _ h'
      · rw [if_neg hs] at hc
        rcases List.mem_cons.mp hc with h | h
        · right; rw [h]; exact List.mem_cons_self _ _
        · rcases ih false c h with h' | h'
          · left; exact h'
          · right; exact List.mem_cons_of_mem _ h'

theorem goCs_true_head_not_space :
    ∀ (l : Str) (c : Char), (collapseSpacesGo true l).head? = some c →
      isPySpace c = false := by
  intro l
  induction l with
  | nil => intro c hc; simp [collapseSpacesGo] at hc
  | cons d rest ih =>
    intro c hc
    unfold collapseSpacesGo at hc
    by_cases hs : isPySpace d
    · rw [if_pos hs, if_pos rfl] at hc
      exact ih c hc
    · rw [if_neg hs] at hc
      simp at hc
      rw [← hc, ← Bool.not_eq_true]
      exact hs

theorem goCs_true_head_mem :
    ∀ (l : Str) (c : Char), (collapseSpacesGo true l).head? = some c →
      c ∈ (l.dropWhile isPySpace).head? := by
  intro l
  induction l with
  | nil => intro c hc; simp [collapseSpacesGo] at hc
  | cons d rest ih =>
    intro c hc
    unfold collapseSpacesGo at hc
    rw [List.dropWhile_cons]
    by_cases hs : isPySpace d
    · rw [if_pos hs, if_pos rfl] at hc
      rw [if_pos hs]
      exact ih c hc
    · rw [if_neg hs] at hc
      rw [if_neg hs]
      simpa using hc

theorem chain'_hyOk_dropWhile_head :
    ∀ (l : Str) (c : Char), List.Chain' hyOk (c :: l) → isPySpace c = true →
      ∀ b, b ∈ (l.dropWhile isPySpace).head? → b ≠ '-' := by
  intro l
  induction l with
  | nil => intro c _ _ b hb; simp at hb
  | cons d rest ih =>
    intro c hch hsp b hb
    rw [List.dropWhile_cons] at hb
    have hpair : hyOk c d := (List.chain'_cons.mp hch).1
    by_cases hd : isPySpace d
    · rw [if_pos hd] at hb
      exact ih d (List.chain'_cons.mp hch).2 hd b hb
    · rw [if_neg hd] at hb
      simp at hb
      rw [← hb]
      intro he
      exact hpair.1 ⟨hsp, he⟩

theorem goCs_false_head :
    ∀ (l : Str) (c : Char), (collapseSpacesGo false l).head? = some c →
      ∃ d, l.head? = some d ∧ c = (if isPySpace d then ' ' else d) := by
  intro l c hc
  cases l with
  | nil => simp [collapseSpacesGo] at hc
  | cons d rest =>
    refine ⟨d, rfl, ?_⟩
    unfold collapseSpacesGo at hc
    by_cases hs : isPySpace d
    · rw [if_pos hs, if_neg (by simp : ¬(false = true))] at hc
      simp at hc
      rw [if_pos hs, ← hc]
    · rw [if_neg hs] at hc
      simp at hc
      rw [if_neg hs, ← hc]

theorem chain'_goCs :
    ∀ (l : Str) (prev : Bool), List.Chain' spOk (collapseSpacesGo prev l) := by
  intro l
  induction l with
  | nil => intro prev; simp [collapseSpacesGo]
  | cons c rest ih =>
    intro prev
    unfold collapseSpacesGo
    by_cases hs : isPySpace c
    · rw [if_pos hs]
      cases prev with
      | true => rw [if_pos rfl]; exact ih true
      | false =>
        rw [if_neg (by simp : ¬(false = true))]
        rw [List.chain'_cons']
        refine ⟨?_, ih true⟩
        intro b hb
        intro hx
        rw [goCs_true_head_not_space rest b hb] at hx
        cases hx.2
    · rw [if_neg hs]
      rw [List.chain'_cons']
      refine ⟨?_, ih false⟩
      intro b _
      intro hx
      rw [hx.1] at hs
      cases hs rfl

theorem mem_goCs :
    ∀ (l : Str) (prev : Bool) (c : Char),
      c ∈ collapseSpacesGo prev l → c = ' ' ∨ (c ∈ l ∧ isPySpace c = false) := by
  intro l
  induction l with
  | nil => intro prev c hc; simp [collapseSpacesGo] at hc
  | cons d rest ih =>
    intro prev c hc
    unfold collapseSpacesGo at hc
    by_cases hs : isPySpace d
    · rw [if_pos hs] at hc
      cases prev with
      | true =>
        rw [if_pos rfl] at hc
        rcases ih true c hc with h | h
        · left; exact h
        · right; exact ⟨List.mem_cons_of_mem _ h.1, h.2⟩
      | false =>
        rw [if_neg (by simp : ¬(false = true))] at hc
        rcases List.mem_cons.mp hc with h | h
        · left; exact h
        · rcases ih true c h with h' | h'
          · left; exact h'
          · right; exact ⟨List.mem_cons_of_mem _ h'.1, h'.2⟩
    · rw [if_neg hs] at hc
      rcases List.mem_cons.mp hc with h | h
      · right
        constructor
        · rw [h]; exact List.mem_cons_self _ _
        · rw [h, ← Bool.not_eq_true]; exact hs
      · rcases ih false c h with h' | h'
        · left; exact h'
        · right; exact ⟨List.mem_cons_of_mem _ h'.1, h'.2⟩

theorem goCs_eq_self :
    ∀ (l : Str), List.Chain' spOk l → (∀ c ∈ l, isPySpace c = true → c = ' ') →
      ∀ (prev : Bool),
        (prev = true → ∀ c, l.head? = some c → isPySpace c = false) →
        collapseSpacesGo prev l = l := by
  intro l
  induction l with
  | nil => intro _ _ prev _; rfl
  | cons c rest ih =>
    intro hch hpt prev hhead
    unfold collapseSpacesGo
    have htail : List.Chain' spOk rest := hch.tail
    have hpt' : ∀ b ∈ rest, isPySpace b = true → b = ' ' :=
      fun b hb => hpt b (List.mem_cons_of_mem _ hb)
    by_cases hs : isPySpace c
    · rw [if_pos hs]
      have hprev : prev = false := by
        cases prev with
        | false => rfl
        | true =>
          have := hhead rfl c rfl
          rw [hs] at this
          cases this
      rw [hprev, if_neg (by simp : ¬(false = true))]
      have hcsp : c = ' ' := hpt c (List.mem_cons_self _ _) hs
      rw [← hcsp]
      congr 1
      apply ih htail hpt' true
      intro _ d hd
      cases rest with
      | nil => simp at hd
      | cons e r =>
        simp at hd
        have hpair : spOk c e := (List.chain'_cons.mp hch).1
        rw [← hd, ← Bool.not_eq_true]
        intro hsp
        exact hpair ⟨hs, hsp⟩
    · rw [if_neg hs]
      congr 1
      exact ih htail hpt' false (by intro h; cases h)

theorem chain'_hyOk_goCs :
    ∀ (l : Str) (prev : Bool), List.Chain' hyOk l →
      List.Chain' hyOk (collapseSpacesGo prev l) := by
  intro l
  induction l with
  | nil => intro prev _; simp [collapseSpacesGo]
  | cons c rest ih =>
    intro prev hch
    have htail : List.Chain' hyOk rest := hch.tail
    unfold collapseSpacesGo
    by_cases hs : isPySpace c
    · rw [if_pos hs]
      cases prev with
      | true => rw [if_pos rfl]; exact ih true htail
      | false =>
        rw [if_neg (by simp : ¬(false = true))]
        rw [List.chain'_cons']
        refine ⟨?_, ih true htail⟩
        intro b hb
        have hbmem := goCs_true_head_mem rest b hb
        have hbne : b ≠ '-' := chain'_hyOk_dropWhile_head rest c hch hs b hbmem
        constructor
        · intro hx; exact hbne hx.2
        · intro hx
          have : isPySpace ' ' = true := by decide
          rw [hx.1] at this
          rw [isPySpace_hyphen] at this
          cases this
    · rw [if_neg hs]
      rw [List.chain'_cons']
      refine ⟨?_, ih false htail⟩
      intro b hb
      obtain ⟨d, hd, hbd⟩ := goCs_false_head rest b hb
      cases rest with
      | nil => simp at hd
      | cons e r =>
        simp at hd
        have hpair : hyOk c e := (List.chain'_cons.mp hch).1
        rw [← hd] at hbd
        by_cases hes : isPySpace e
        · rw [if_pos hes] at hbd
          constructor
          · intro hx
            rw [hbd] at hx
            have : (' ' : Char) ≠ '-' := by decide
            exact this hx.2
          · intro hx
            exact hpair.2 ⟨hx.1, hes⟩
        · rw [if_neg hes] at hbd
          rw [hbd]
          exact hpair

/-! ### Trimming and uppercasing stages -/

theorem chain'_dropWhile {R : Char → Char → Prop} {p : Char → Bool} :
    ∀ {l : Str}, List.Chain' R l → List.Chain' R (l.dropWhile p) := by
  intro l
  induction l with
  | nil => intro _; simp
  | cons c rest ih =>
    intro hch
    rw [List.dropWhile_cons]
    by_cases hc : p c
    · rw [if_pos hc]
      exact ih hch.tail
    · rw [if_neg hc]
      exact hch

theorem chain'_pyStrip {R : Char → Char → Prop}
    (hsym : ∀ a b, R a b → R b a) {l : Str} (h : List.Chain' R l) :
    List.Chain' R (pyStrip l) := by
  unfold pyStrip
  have h1 : List.Chain' R (l.dropWhile isPySpace) := chain'_dropWhile h
  have h2 : List.Chain' R (l.dropWhile isPySpace).reverse := by
    rw [List.chain'_reverse]
    exact List.Chain'.imp (fun a b hab => hsym a b hab) h1
  have h3 : List.Chain' R ((l.dropWhile isPySpace).reverse.dropWhile isPySpace) :=
    chain'_dropWhile h2
  rw [List.chain'_reverse]
  exact List.Chain'.imp (fun a b hab => hsym a b hab) h3

theorem mem_pyStrip {c : Char} {l : Str} (h : c ∈ pyStrip l) : c ∈ l := by
  unfold pyStrip at h
  rw [List.mem_reverse] at h
  have h1 := (List.dropWhile_suffix (l := (l.dropWhile isPySpace).reverse)
    isPySpace).sublist.subset h
  rw [List.mem_reverse] at h1
  exact (List.dropWhile_suffix isPySpace).sublist.subset h1

theorem head?_dropWhile_not {p : Char → Bool} :
    ∀ (l : Str) (c : Char), (l.dropWhile p).head? = some c → p c = false := by
  intro l
  induction l with
  | nil => intro c hc; simp at hc
  | cons d rest ih =>
    intro c hc
    rw [List.dropWhile_cons] at hc
    by_cases hd : p d
    · rw [if_pos hd] at hc
      exact ih c hc
    · rw [if_neg hd] at hc
      simp at hc
      rw [← hc, ← Bool.not_eq_true]
      exact hd

theorem pyStrip_head_not_space {l : Str} {c : Char}
    (h : (pyStrip l).head? = some c) : isPySpace c = false := by
  unfold pyStrip at h
  rw [List.head?_reverse] at h
  set A := l.dropWhile isPySpace with hA
  set B := A.reverse.dropWhile isPySpace with hB
  have hBne : B ≠ [] := by
    intro he
    rw [he] at h
    simp at h
  have hsuf := List.dropWhile_suffix (l := A.reverse) isPySpace
  obtain ⟨t, ht⟩ := hsuf
  have : B.getLast? = A.reverse.getLast? := by
    rw [← ht]
    exact (List.getLast?_append_of_ne_nil t hBne).symm
  rw [this, List.getLast?_reverse] at h
  exact head?_dropWhile_not l c h

theorem pyStrip_getLast_not_space {l : Str} {c : Char}
    (h : (pyStrip l).getLast? = some c) : isPySpace c = false := by
  unfold pyStrip at h
  rw [List.getLast?_reverse] at h
  exact head?_dropWhile_not _ c h

theorem dropWhile_eq_self_of_head {p : Char → Bool} {l : Str}
    (h : ∀ c, l.head? = some c → p c = false) : l.dropWhile p = l := by
  cases l with
  | nil => rfl
  | cons c rest =>
    rw [List.dropWhile_cons, if_neg]
    rw [h c rfl]
    simp

theorem pyStrip_eq_self {l : Str}
    (h1 : ∀ c, l.head? = some c → isPySpace c = false)
    (h2 : ∀ c, l.getLast? = some c → isPySpace c = false) : pyStrip l = l := by
  unfold pyStrip
  rw [dropWhile_eq_self_of_head h1]
  rw [dropWhile_eq_self_of_head (by
    intro c hc
    rw [List.head?_reverse] at hc
    exact h2 c hc)]
  exact List.reverse_reverse l

theorem pyStrip_idem (s : Str) : pyStrip (pyStrip s) = pyStrip s :=
  pyStrip_eq_self (fun _ hc => pyStrip_head_not_space hc)
    (fun _ hc => pyStrip_getLast_not_space hc)

theorem hyOk_pyUpper {a b : Char} (h : hyOk a b) :
    hyOk (pyUpper a) (pyUpper b) := by
  constructor
  · intro hx
    rw [isPySpace_pyUpper] at hx
    exact h.1 ⟨hx.1, pyUpper_hyphen.mp hx.2⟩
  · intro hx
    rw [isPySpace_pyUpper] at hx
    exact h.2 ⟨pyUpper_hyphen.mp hx.1, hx.2⟩

theorem spOk_pyUpper {a b : Char} (h : spOk a b) :
    spOk (pyUpper a) (pyUpper b) := by
  intro hx
  rw [isPySpace_pyUpper, isPySpace_pyUpper] at hx
  exact h hx

/-! ### Idempotence of `normalize_name` -/

theorem normalize_name_eq (s : Str) :
    normalize_name s =
      (pyStrip (collapseSpacesGo false (collapseHyphensGo false
        (strip_accents s)))).map pyUpper := rfl

theorem normalize_name_all_clean (s : Str) :
    ∀ b ∈ normalize_name s, cleanChar b = true := by
  intro b hb
  rw [normalize_name_eq] at hb
  rw [List.mem_map] at hb
  obtain ⟨b', hb', rfl⟩ := hb
  apply cleanChar_pyUpper
  have hb2 := mem_pyStrip hb'
  rcases mem_goCs _ false _ hb2 with h | h
  · rw [h]; exact cleanChar_space
  · rcases mem_goHy _ false _ h.1 with h' | h'
    · rw [h']; exact cleanChar_hyphen
    · exact strip_accents_all_clean s _ h'

theorem normalize_name_chain_hyOk (s : Str) :
    List.Chain' hyOk (normalize_name s) := by
  rw [normalize_name_eq]
  rw [List.chain'_map]
  apply List.Chain'.imp (fun a b hab => hyOk_pyUpper hab)
  apply chain'_pyStrip (fun a b hab => hyOk_symm hab)
  exact chain'_hyOk_goCs _ false (chain'_goHy _ false)

theorem normalize_name_chain_spOk (s : Str) :
    List.Chain' spOk (normalize_name s) := by
  rw [normalize_name_eq]
  rw [List.chain'_map]
  apply List.Chain'.imp (fun a b hab => spOk_pyUpper hab)
  apply chain'_pyStrip (fun a b hab => spOk_symm hab)
  exact chain'_goCs _ false

theorem normalize_name_spaces (s : Str) :
    ∀ c ∈ normalize_name s, isPySpace c = true → c = ' ' := by
  intro c hc hsp
  rw [normalize_name_eq] at hc
  rw [List.mem_map] at hc
  obtain ⟨b, hb, rfl⟩ := hc
  rw [isPySpace_pyUpper] at hsp
  have hb2 := mem_pyStrip hb
  rcases mem_goCs _ false _ hb2 with h | h
  · rw [h, pyUpper_space]
  · rw [h.2] at hsp
    cases hsp

theorem normalize_name_head (s : Str) :
    ∀ c, (normalize_name s).head? = some c → isPySpace c = false := by
  intro c hc
  rw [normalize_name_eq, List.head?_map] at hc
  cases hh : (pyStrip (collapseSpacesGo false (collapseHyphensGo false
      (strip_accents s)))).head? with
  | none => rw [hh] at hc; cases hc
  | some b =>
    rw [hh] at hc
    simp at hc
    rw [← hc, isPySpace_pyUpper]
    exact pyStrip_head_not_space hh

theorem normalize_name_getLast (s : Str) :
    ∀ c, (normalize_name s).getLast? = some c → isPySpace c = false := by
  intro c hc
  rw [normalize_name_eq, List.getLast?_map] at hc
  cases hh : (pyStrip (collapseSpacesGo false (collapseHyphensGo false
      (strip_accents s)))).getLast? with
  | none => rw [hh] at hc; cases hc
  | some b =>
    rw [hh] at hc
    simp at hc
    rw [← hc, isPySpace_pyUpper]
    exact pyStrip_getLast_not_space hh

theorem normalize_name_map_pyUpper (s : Str) :
    (normalize_name s).map pyUpper = normalize_name s := by
  rw [normalize_name_eq]
  rw [List.map_map]
  apply List.map_congr_left
  intro a _
  exact pyUpper_idem a

/-- The idempotence of the name normalizer, shared between claims. -/
theorem normalize_name_idem (s : Str) :
    normalize_name (normalize_name s) = normalize_name s := by
  have h1 : strip_accents (normalize_name s) = normalize_name s :=
    strip_accents_of_clean (normalize_name_all_clean s)
  have h2 : collapseHyphensGo false (normalize_name s) = normalize_name s :=
    goHy_eq_self _ (normalize_name_chain_hyOk s) false (by intro h; cases h)
  have h3 : collapseSpacesGo false (normalize_name s) = normalize_name s :=
    goCs_eq_self _ (normalize_name_chain_spOk s) (normalize_name_spaces s)
      false (by intro h; cases h)
  have h4 : pyStrip (normalize_name s) = normalize_name s :=
    pyStrip_eq_self (normalize_name_head s) (normalize_name_getLast s)
  rw [normalize_name_eq (normalize_name s)]
  rw [h1, h2, h3, h4]
  exact normalize_name_map_pyUpper s

/-! ### Validation reconciler (`src/app/validation.py`) -/

/-- Latest expiration stored for a person in the database. -/
structure DbExpiration where
  expire : Str
  printed_at : Str
deriving DecidableEq

/-- One entry of `build_validation_lookup`: always carries its four fields, so
the corresponding Python dict is never falsy. -/
structure ValidationRow where
  nom : Str
  prenom : Str
  valide_par : Str
  montant : Str
deriving DecidableEq

/-- Identity key: a (surname, given name) pair. -/
abbrev IdKey := Str × Str

def isDigit (c : Char) : Bool := 48 ≤ c.toNat && c.toNat ≤ 57

def digitsToNat (s : Str) : Nat :=
  s.foldl (fun acc c => acc * 10 + (c.toNat - 48)) 0

def isLeapYear (y : Nat) : Bool :=
  y % 4 = 0 && (y % 100 ≠ 0 || y % 400 = 0)

def daysInMonth (y m : Nat) : Nat :=
  if m = 2 then (if isLeapYear y then 29 else 28)
  else if m = 4 ∨ m = 6 ∨ m = 9 ∨ m = 11 then 30
  else 31

/-- Split a list on a separator character (like `str.split(sep)`). -/
def splitOnChar (sep : Char) : Str → List Str
  | [] => [[]]
  | c :: rest =>
    let r := splitOnChar sep rest
    if c = sep then [] :: r
    else (c :: r.headD []) :: r.tail

/-- A `strptime` `%m` component: one or two digits (the regex value
bounds are subsumed by the calendar check of `validDate`). -/
def digits2 (s : Str) : Bool :=
  decide (s ≠ []) && decide (s.length ≤ 2) && s.all isDigit

/-- A `strptime` `%d` component: one or two digits, or CPython's
space-padded alternative `" [1-9]"`. -/
def dayComp (s : Str) : Bool :=
  (decide (s ≠ []) && decide (s.length ≤ 2) && s.all isDigit) ||
  (match s with
   | [' ', c] => 49 ≤ c.toNat && c.toNat ≤ 57
   | _ => false)

/-- Numeric value of a day component (a leading padding space dropped). -/
def dayValue (s : Str) : Nat :=
  digitsToNat (s.dropWhile (fun c => c = ' '))

/-- A `strptime` `%Y` component: exactly four digits (CPython's
`_strptime` compiles `%Y` as `\d\d\d\d`). -/
def digits4 (s : Str) : Bool :=
  decide (s.length = 4) && s.all isDigit

structure DateParts where
  day : Nat
  month : Nat
  year : Nat
deriving DecidableEq

/-- `datetime` range checks: year at least 1, real calendar day. -/
def validDate (d m y : Nat) : Bool :=
  decide (1 ≤ y) && decide (1 ≤ m) && decide (m ≤ 12) && decide (1 ≤ d) &&
  decide (d ≤ daysInMonth y m)

/-- `datetime.strptime(text, "%d<sep>%m<sep>%Y")`. -/
def parseDMY (sep : Char) (s : Str) : Option DateParts :=
  match splitOnChar sep s with
  | [d, m, y] =>
    if dayComp d && digits2 m && digits4 y then
      if validDate (dayValue d) (digitsToNat m) (digitsToNat y) then
        some ⟨dayValue d, digitsToNat m, digitsToNat y⟩
      else none
    else none
  | _ => none

/-- `datetime.strptime(text, "%Y<sep>%m<sep>%d")`. -/
def parseYMD (sep : Char) (s : Str) : Option DateParts :=
  match splitOnChar sep s with
  | [y, m, d] =>
    if digits4 y && digits2 m && dayComp d then
      if validDate (dayValue d) (digitsToNat m) (digitsToNat y) then
        some ⟨dayValue d, digitsToNat m, digitsToNat y⟩
      else none
    else none
  | _ => none

/-- Zero-padded decimal rendering (as `strftime` zero-pads `%d`/`%m`/`%Y`). -/
def padNat (width n : Nat) : Str :=
  List.replicate (width - (Nat.toDigits 10 n).length) '0' ++ Nat.toDigits 10 n

/-- `dt.strftime("%d/%m/%Y")` as glibc renders it: day and month
zero-padded to two digits, the year printed without padding (four digits
for every year from 1000 up; the four-digit `%Y` parser can also produce
smaller years such as `0020` → 20, printed `"20"`). -/
def formatDMY (p : DateParts) : Str :=
  padNat 2 p.day ++ '/' :: (padNat 2 p.month ++ '/' :: Nat.toDigits 10 p.year)

/-- `validation._normalize_expire`: try `%d/%m/%Y`, `%Y-%m-%d`, `%d-%m-%Y`,
`%Y/%m/%d` in that order and reformat to `DD/MM/YYYY`; unparseable text is
returned (trimmed) unchanged. -/
def normalize_expire (value : Str) : Str :=
  let text := pyStrip value
  if text = [] then []
  else
    match parseDMY '/' text with
    | some p => formatDMY p
    | none =>
      match parseYMD '-' text with
      | some p => formatDMY p
      | none =>
        match parseDMY '-' text with
        | some p => formatDMY p
        | none =>
          match parseYMD '/' text with
          | some p => formatDMY p
          | none => text

/-- `validation.compute_validation_status` (the shipped baseline ruleset; the
`validators` argument is kept for API compatibility and unused). -/
def compute_validation_status (key : IdKey)
    (db_lookup : IdKey → Option DbExpiration)
    (validation_lookup : IdKey → Option ValidationRow)
    (default_expire : Str) (validators : List Str) : Str :=
  if key.1 = [] ∧ key.2 = [] then []
  else
    match db_lookup key, validation_lookup key with
    | none, none => []
    | none, some _ => []
    | some _, none => "red".data
    | some db, some _ =>
      if normalize_expire default_expire = normalize_expire db.expire then
        "green".data
      else "orange".data

/-- ASCII letters and digits (validator-name token characters). -/
def isAsciiAlnum (c : Char) : Bool :=
  (48 ≤ c.toNat && c.toNat ≤ 57) || (65 ≤ c.toNat && c.toNat ≤ 90) ||
  (97 ≤ c.toNat && c.toNat ≤ 122)

/-- Accumulator pass splitting a list into maximal runs of characters
satisfying `p` (the current run is carried reversed). -/
def tokensGo (p : Char → Bool) (cur : Str) : Str → List Str
  | [] => if cur = [] then [] else [cur.reverse]
  | c :: rest =>
    if p c then tokensGo p (c :: cur) rest
    else if cur = [] then tokensGo p [] rest
    else cur.reverse :: tokensGo p [] rest

/-- Maximal runs of characters satisfying `p`, separators dropped. -/
def tokenize (p : Char → Bool) (s : Str) : List Str :=
  tokensGo p [] s

/-- Separators of `validation.parse_validator_names` (regex `[;,/\n\r]+`). -/
def isValidatorSep (c : Char) : Bool :=
  c = ';' || c = ',' || c = '/' || c = '\n' || c = '\r'

/-- `validation.parse_validator_names`: split the configured validator text,
strip accents, trim, uppercase and drop empties (a set of names). -/
def parse_validator_names (raw : Str) : List Str :=
  (((tokenize (fun c => !isValidatorSep c) raw).map
    (fun t => (pyStrip (strip_accents t)).map pyUpper)).filter
      (fun t => t ≠ [])).dedup

/-- Accent-and-case folding applied before validator-name comparison. -/
def foldName (s : Str) : Str :=
  (strip_accents s).map pyUpper

/-- Modelled from the spec: the validator-name-aware reconciler variant of
spec section 4.4 (the alternate ruleset).  The deciding code is code of the
repository that is absent from `src/` — the shipped
`compute_validation_status` keeps its `validators` argument only for API
compatibility, while the variant's collaborators remain
(`parse_validator_names`, the `ffessm_validators` configuration value and
the `question` status handled by the gui display maps).  Rules, following
the spec's words: a missing identity is always `""`; no history entry is
`""`; a history entry without a validation entry is `"question"`; with both
entries an expiration mismatch (configured vs. historical) is `"red"`,
otherwise an empty allowlist short-circuits to `"green"`, and a non-empty
allowlist requires the tokenized, accent-and-case-folded `valide_par` text
to contain an allowlisted name for `"green"`, else `"orange"`. -/
def compute_validation_status_validator_aware (key : IdKey)
    (db_lookup : IdKey → Option DbExpiration)
    (validation_lookup : IdKey → Option ValidationRow)
    (default_expire : Str) (validators : List Str) : Str :=
  if key.1 = [] ∧ key.2 = [] then []
  else
    match db_lookup key, validation_lookup key with
    | none, _ => []
    | some _, none => "question".data
    | some db, some v =>
      if normalize_expire default_expire ≠ normalize_expire db.expire then
        "red".data
      else if validators = [] then "green".data
      else if (tokenize isAsciiAlnum (foldName v.valide_par)).any
          (fun t => validators.contains t) then "green".data
      else "orange".data

/-- C10: the status computed by `compute_validation_status` is independent of
its `validators` argument — two calls differing only in the validators set
return the same status. -/
theorem compute_validation_status_ignores_validators
    (key : IdKey) (db : IdKey → Option DbExpiration)
    (val : IdKey → Option ValidationRow) (dflt : Str) (v1 v2 : List Str) :
    compute_validation_status key db val dflt v1 =
      compute_validation_status key db val dflt v2 := rfl

def c1Db : IdKey → Option DbExpiration := fun k =>
  if k = ([], []) then some ⟨"31/12/2026".data, "2024-01-01T10:00:00".data⟩
  else none

def c1Val : IdKey → Option ValidationRow := fun _ => none

/-- C1 counterexample: the wholly empty identity key has a history entry and
no validation entry, yet `compute_validation_status` returns `""`, not
`"red"` (the empty-identity short-circuit fires first). -/
theorem compute_validation_status_empty_key_counterexample :
    (c1Db ([], [])).isSome = true ∧ c1Val ([], []) = none ∧
      compute_validation_status ([], []) c1Db c1Val "31/12/2026".data [] ≠
        "red".data := by
  refine ⟨rfl, rfl, ?_⟩
  decide

/-- C1 (amended: a key whose surname and given name are both empty always
yields `""`; the claimed rules hold for every other key): absent from both
lookups yields `""`; history only yields `"red"`; validation only yields
`""`; both present yields `"green"` exactly when the history expiration,
normalized to DD/MM/YYYY, equals the normalized configured expiration, and
`"orange"` exactly otherwise. -/
theorem compute_validation_status_baseline_rules (key : IdKey)
    (db : IdKey → Option DbExpiration) (val : IdKey → Option ValidationRow)
    (dflt : Str) (vs : List Str) (hkey : ¬(key.1 = [] ∧ key.2 = [])) :
    (db key = none → val key = none →
      compute_validation_status key db val dflt vs = []) ∧
    ((db key).isSome = true → val key = none →
      compute_validation_status key db val dflt vs = "red".data) ∧
    (db key = none → (val key).isSome = true →
      compute_validation_status key db val dflt vs = []) ∧
    (∀ e, db key = some e → (val key).isSome = true →
      ((compute_validation_status key db val dflt vs = "green".data ↔
          normalize_expire e.expire = normalize_expire dflt) ∧
        (compute_validation_status key db val dflt vs = "orange".data ↔
          normalize_expire e.expire ≠ normalize_expire dflt))) := by
  unfold compute_validation_status
  rw [if_neg hkey]
  refine ⟨?_, ?_, ?_, ?_⟩
  · intro h1 h2; rw [h1, h2]
  · intro h1 h2
    rw [Option.isSome_iff_exists] at h1
    obtain ⟨e, he⟩ := h1
    rw [he, h2]
  · intro h1 h2
    rw [Option.isSome_iff_exists] at h2
    obtain ⟨v, hv⟩ := h2
    rw [h1, hv]
  · intro e he h2
    rw [Option.isSome_iff_exists] at h2
    obtain ⟨v, hv⟩ := h2
    rw [he, hv]
    dsimp only
    by_cases heq : normalize_expire dflt = normalize_expire e.expire
    · rw [if_pos heq]
      constructor
      · constructor
        · intro _; rw [heq]
        · intro _; rfl
      · constructor
        · intro hco
          exfalso
          have : ("green".data : Str) ≠ "orange".data := by decide
          exact this hco
        · intro hne
          exfalso
          exact hne (heq.symm)
    · rw [if_neg heq]
      constructor
      · constructor
        · intro hco
          exfalso
          have : ("orange".data : Str) ≠ "green".data := by decide
          exact this hco
        · intro heq2
          exact absurd heq2.symm heq
      · constructor
        · intro _
          intro heq2
          exact heq heq2.symm
        · intro _; rfl

def c1wDb : IdKey → Option DbExpiration := fun k =>
  if k = ("DUPONT".data, "ALICE".data) then
    some ⟨"31/12/2026".data, "2024-01-01T10:00:00".data⟩
  else none

def c1wVal : IdKey → Option ValidationRow := fun k =>
  if k = ("DUPONT".data, "ALICE".data) then
    some ⟨"DUPONT".data, "ALICE".data, "Jean".data, "45".data⟩
  else none

/-- Witness for the amended C1 rules at the spec's reconciliation scenario:
matching configured expiration gives `"green"`, mismatched gives
`"orange"`. -/
theorem compute_validation_status_baseline_rules_witness :
    compute_validation_status ("DUPONT".data, "ALICE".data) c1wDb c1wVal
        "31/12/2026".data [] = "green".data ∧
      compute_validation_status ("DUPONT".data, "ALICE".data) c1wDb c1wVal
        "31/12/2027".data [] = "orange".data := by
  constructor
  · exact ((compute_validation_status_baseline_rules
      ("DUPONT".data, "ALICE".data) c1wDb c1wVal "31/12/2026".data []
      (by decide)).2.2.2 ⟨"31/12/2026".data, "2024-01-01T10:00:00".data⟩
      (by decide) (by decide)).1.mpr (by decide)
  · exact ((compute_validation_status_baseline_rules
      ("DUPONT".data, "ALICE".data) c1wDb c1wVal "31/12/2027".data []
      (by decide)).2.2.2 ⟨"31/12/2026".data, "2024-01-01T10:00:00".data⟩
      (by decide) (by decide)).2.mpr (by decide)

/-- C9: `normalize_name` is idempotent and total, and returns the empty
string on empty input. -/
theorem normalize_name_idempotent_total :
    (∀ t : Str, normalize_name (normalize_name t) = normalize_name t) ∧
      normalize_name [] = [] :=
  ⟨normalize_name_idem, rfl⟩

/-- C7: rules of the validator-name-aware reconciler variant (modelled from
the spec, see `compute_validation_status_validator_aware`): history entry
without validation entry yields `"question"`; with both entries an
expiration mismatch between the configured and historical expiration yields
`"red"`; otherwise an empty allowlist yields `"green"`, and a non-empty
allowlist yields `"green"` exactly when the folded, tokenized validated-by
text contains an allowlisted name, and `"orange"` otherwise. -/
theorem validator_aware_variant_rules (key : IdKey)
    (db : IdKey → Option DbExpiration) (val : IdKey → Option ValidationRow)
    (dflt : Str) (vs : List Str) (hkey : ¬(key.1 = [] ∧ key.2 = [])) :
    (∀ e, db key = some e → val key = none →
      compute_validation_status_validator_aware key db val dflt vs =
        "question".data) ∧
    (∀ e v, db key = some e → val key = some v →
      normalize_expire dflt ≠ normalize_expire e.expire →
      compute_validation_status_validator_aware key db val dflt vs =
        "red".data) ∧
    (∀ e v, db key = some e → val key = some v →
      normalize_expire dflt = normalize_expire e.expire → vs = [] →
      compute_validation_status_validator_aware key db val dflt vs =
        "green".data) ∧
    (∀ e v, db key = some e → val key = some v →
      normalize_expire dflt = normalize_expire e.expire → vs ≠ [] →
      ((compute_validation_status_validator_aware key db val dflt vs =
          "green".data ↔
        (tokenize isAsciiAlnum (foldName v.valide_par)).any
          (fun t => vs.contains t) = true) ∧
       (compute_validation_status_validator_aware key db val dflt vs =
          "orange".data ↔
        (tokenize isAsciiAlnum (foldName v.valide_par)).any
          (fun t => vs.contains t) = false))) := by
  unfold compute_validation_status_validator_aware
  rw [if_neg hkey]
  refine ⟨?_, ?_, ?_, ?_⟩
  · intro e he hv
    rw [he, hv]
  · intro e v he hv hne
    rw [he, hv]
    dsimp only
    rw [if_pos hne]
  · intro e v he hv heq hvs
    rw [he, hv]
    dsimp only
    rw [if_neg (by intro hc; exact hc heq), if_pos hvs]
  · intro e v he hv heq hvs
    rw [he, hv]
    dsimp only
    rw [if_neg (by intro hc; exact hc heq), if_neg hvs]
    by_cases hany : (tokenize isAsciiAlnum (foldName v.valide_par)).any
        (fun t => vs.contains t) = true
    · rw [if_pos hany]
      constructor
      · exact ⟨fun _ => hany, fun _ => rfl⟩
      · constructor
        · intro hco
          exfalso
          have : ("green".data : Str) ≠ "orange".data := by decide
          exact this hco
        · intro hfa
          rw [hany] at hfa
          cases hfa
    · rw [if_neg hany]
      constructor
      · constructor
        · intro hco
          exfalso
          have : ("orange".data : Str) ≠ "green".data := by decide
          exact this hco
        · intro htr
          exact absurd htr hany
      · constructor
        · intro _
          rw [← Bool.not_eq_true]
          exact hany
        · intro _; rfl

def c7wDb : IdKey → Option DbExpiration := fun k =>
  if k = ("MARTIN".data, "CLARA".data) then
    some ⟨"31/12/2026".data, "2024-01-03T10:00:00".data⟩
  else none

def c7wVal : IdKey → Option ValidationRow := fun k =>
  if k = ("MARTIN".data, "CLARA".data) then
    some ⟨"MARTIN".data, "CLARA".data, "Validé par Jean".data, "20".data⟩
  else none

/-- Witness for the validator-aware rules: with allowlist `{JEAN, MARIE}`
parsed from `"Jean;Marie"`, a matching expiration and a validated-by text
naming Jean yields `"green"`; with an empty allowlist it is also
`"green"`. -/
theorem validator_aware_variant_rules_witness :
    compute_validation_status_validator_aware
        ("MARTIN".data, "CLARA".data) c7wDb c7wVal "31/12/2026".data
        (parse_validator_names "Jean;Marie".data) = "green".data ∧
      compute_validation_status_validator_aware
        ("MARTIN".data, "CLARA".data) c7wDb c7wVal "31/12/2026".data []
        = "green".data := by
  constructor
  · exact ((validator_aware_variant_rules ("MARTIN".data, "CLARA".data)
      c7wDb c7wVal "31/12/2026".data
      (parse_validator_names "Jean;Marie".data) (by decide)).2.2.2
      ⟨"31/12/2026".data, "2024-01-03T10:00:00".data⟩
      ⟨"MARTIN".data, "CLARA".data, "Validé par Jean".data, "20".data⟩
      (by decide) (by decide) (by decide) (by decide)).1.mpr (by decide)
  · exact (validator_aware_variant_rules ("MARTIN".data, "CLARA".data)
      c7wDb c7wVal "31/12/2026".data [] (by decide)).2.2.1
      ⟨"31/12/2026".data, "2024-01-03T10:00:00".data⟩
      ⟨"MARTIN".data, "CLARA".data, "Validé par Jean".data, "20".data⟩
      (by decide) (by decide) (by decide) rfl

/-! ### Print history ledger (`src/app/db.py`, stats queries of `gui.py`) -/

/-- One row of the append-only `prints` table; `email`, `montant` and
`zpl_checksum` are nullable columns. -/
structure PrintEvent where
  nom : Str
  prenom : Str
  ddn : Str
  expire : Str
  email : Option Str
  montant : Option Str
  zpl_checksum : Option Str
  status : Str
  printed_at : Str
deriving DecidableEq

/-- SQLite BINARY collation: strict lexicographic comparison by code point
(equal to byte order on UTF-8 text). -/
def strLt : Str → Str → Bool
  | [], [] => false
  | [], _ :: _ => true
  | _ :: _, [] => false
  | a :: as, b :: bs =>
    if a.toNat < b.toNat then true
    else if b.toNat < a.toNat then false
    else strLt as bs

theorem strLt_irrefl : ∀ a : Str, strLt a a = false := by
  intro a
  induction a with
  | nil => rfl
  | cons c rest ih =>
    unfold strLt
    rw [if_neg (by omega), if_neg (by omega)]
    exact ih

theorem strLt_trans :
    ∀ (a b c : Str), strLt a b = true → strLt b c = true →
      strLt a c = true := by
  intro a
  induction a with
  | nil =>
    intro b c h1 h2
    cases b with
    | nil => cases h1
    | cons bh bt =>
      cases c with
      | nil => cases h2
      | cons ch ct => rfl
  | cons ah at' ih =>
    intro b c h1 h2
    cases b with
    | nil => cases h1
    | cons bh bt =>
      cases c with
      | nil => cases h2
      | cons ch ct =>
        unfold strLt at h1 h2 ⊢
        by_cases hab : ah.toNat < bh.toNat
        · by_cases hbc : bh.toNat < ch.toNat
          · rw [if_pos (by omega)]
          · rw [if_neg hbc] at h2
            by_cases hcb : ch.toNat < bh.toNat
            · rw [if_pos hcb] at h2; cases h2
            · rw [if_pos (by omega)]
        · rw [if_neg hab] at h1
          by_cases hba : bh.toNat < ah.toNat
          · rw [if_pos hba] at h1; cases h1
          · rw [if_neg hba] at h1
            by_cases hbc : bh.toNat < ch.toNat
            · rw [if_pos (by omega)]
            · rw [if_neg hbc] at h2
              by_cases hcb : ch.toNat < bh.toNat
              · rw [if_pos hcb] at h2; cases h2
              · rw [if_neg hcb] at h2
                rw [if_neg (by omega), if_neg (by omega)]
                exact ih bt ct h1 h2

theorem strLt_connex :
    ∀ (a b : Str), strLt a b = false → strLt b a = false → a = b := by
  intro a
  induction a with
  | nil =>
    intro b h1 _
    cases b with
    | nil => rfl
    | cons bh bt => cases h1
  | cons ah at' ih =>
    intro b h1 h2
    cases b with
    | nil => cases h2
    | cons bh bt =>
      unfold strLt at h1 h2
      by_cases hab : ah.toNat < bh.toNat
      · rw [if_pos hab] at h1; cases h1
      · by_cases hba : bh.toNat < ah.toNat
        · rw [if_pos hba] at h2; cases h2
        · rw [if_neg hab, if_neg hba] at h1
          rw [if_neg hba, if_neg hab] at h2
          have hhead : ah = bh := char_eq_iff_toNat.mpr (by omega)
          rw [hhead, ih bt h1 h2]

/-- Fold keeping the first element whose key is maximal — the shape shared by
SQL `MAX(...)` and `ORDER BY ... DESC LIMIT 1`. -/
def foldMaxBy {α : Type} (key : α → Str) (l : List α) : Option α :=
  l.foldl (fun acc x =>
    match acc with
    | none => some x
    | some m => if strLt (key m) (key x) then some x else some m) none

theorem foldMaxBy_some_aux {α : Type} (key : α → Str) :
    ∀ (l : List α) (m : α),
      ∃ t, (l.foldl (fun acc x =>
          match acc with
          | none => some x
          | some m' => if strLt (key m') (key x) then some x else some m')
          (some m)) = some t ∧
        (t = m ∨ t ∈ l) ∧ strLt (key t) (key m) = false ∧
        ∀ u ∈ l, strLt (key t) (key u) = false := by
  intro l
  induction l with
  | nil =>
    intro m
    exact ⟨m, rfl, Or.inl rfl, strLt_irrefl _, by intro u hu; cases hu⟩
  | cons x rest ih =>
    intro m
    by_cases hswitch : strLt (key m) (key x) = true
    · obtain ⟨t, hfold, hmem, hmax_acc, hmax⟩ := ih x
      refine ⟨t, ?_, ?_, ?_, ?_⟩
      · rw [List.foldl_cons]
        simp only [hswitch, if_pos]
        exact hfold
      · rcases hmem with h | h
        · right; rw [h]; exact List.mem_cons_self _ _
        · right; exact List.mem_cons_of_mem _ h
      · rw [← Bool.not_eq_true]
        intro hcon
        have := strLt_trans _ _ _ hcon hswitch
        rw [hmax_acc] at this
        cases this
      · intro u hu
        rcases List.mem_cons.mp hu with h | h
        · rw [h]; exact hmax_acc
        · exact hmax u h
    · obtain ⟨t, hfold, hmem, hmax_acc, hmax⟩ := ih m
      refine ⟨t, ?_, ?_, ?_, ?_⟩
      · rw [List.foldl_cons]
        rw [Bool.not_eq_true] at hswitch
        simp only [hswitch]
        rw [if_neg (by simp : ¬(false = true))]
        exact hfold
      · rcases hmem with h | h
        · left; exact h
        · right; exact List.mem_cons_of_mem _ h
      · exact hmax_acc
      · intro u hu
        rcases List.mem_cons.mp hu with h | h
        · rw [h, ← Bool.not_eq_true]
          intro hcon
          by_cases hxm : strLt (key x) (key m) = true
          · have h1 := strLt_trans _ _ _ hcon hxm
            rw [hmax_acc] at h1
            cases h1
          · rw [Bool.not_eq_true] at hswitch hxm
            have heq := strLt_connex _ _ hswitch hxm
            rw [heq] at hmax_acc
            rw [hmax_acc] at hcon
            cases hcon
        · exact hmax u h

theorem foldMaxBy_eq_none_iff {α : Type} (key : α → Str) (l : List α) :
    foldMaxBy key l = none ↔ l = [] := by
  cases l with
  | nil => simp [foldMaxBy]
  | cons x rest =>
    constructor
    · intro h
      unfold foldMaxBy at h
      rw [List.foldl_cons] at h
      obtain ⟨t, hfold, _, _, _⟩ := foldMaxBy_some_aux key rest x
      rw [hfold] at h
      cases h
    · intro h; cases h

theorem foldMaxBy_mem {α : Type} (key : α → Str) {l : List α} {t : α}
    (h : foldMaxBy key l = some t) : t ∈ l := by
  cases l with
  | nil => cases h
  | cons x rest =>
    unfold foldMaxBy at h
    rw [List.foldl_cons] at h
    obtain ⟨t', hfold, hmem, _, _⟩ := foldMaxBy_some_aux key rest x
    rw [hfold] at h
    cases h
    rcases hmem with h' | h'
    · rw [h']; exact List.mem_cons_self _ _
    · exact List.mem_cons_of_mem _ h'

theorem foldMaxBy_max {α : Type} (key : α → Str) {l : List α} {t : α}
    (h : foldMaxBy key l = some t) :
    ∀ u ∈ l, strLt (key t) (key u) = false := by
  cases l with
  | nil => cases h
  | cons x rest =>
    unfold foldMaxBy at h
    rw [List.foldl_cons] at h
    obtain ⟨t', hfold, _, hacc, hmax⟩ := foldMaxBy_some_aux key rest x
    rw [hfold] at h
    cases h
    intro u hu
    rcases List.mem_cons.mp hu with h' | h'
    · rw [h']; exact hacc
    · exact hmax u h'

/-- `SELECT ... GROUP BY nom, prenom, ddn`: the rows grouped under one person
key by `v_person_stats`. -/
def personGroup (db : List PrintEvent) (nom prenom ddn : Str) :
    List PrintEvent :=
  db.filter (fun e => decide (e.nom = nom ∧ e.prenom = prenom ∧ e.ddn = ddn))

/-- `v_person_stats.cnt = SUM(CASE WHEN status='printed' THEN 1 ELSE 0 END)`. -/
def v_person_stats_cnt (db : List PrintEvent) (nom prenom ddn : Str) : Nat :=
  ((personGroup db nom prenom ddn).map
    (fun e => if e.status = "printed".data then 1 else 0)).sum

/-- `v_person_stats.last_print = MAX(CASE WHEN status='printed' THEN
printed_at END)` — SQL `MAX` ignores the NULLs of the non-printed rows and
is NULL when no printed row exists. -/
def v_person_stats_last_print (db : List PrintEvent) (nom prenom ddn : Str) :
    Option Str :=
  foldMaxBy id ((personGroup db nom prenom ddn).filterMap
    (fun e => if e.status = "printed".data then some e.printed_at else none))

/-- The per-(person, expiration) printed counter of
`gui.refresh_from_db_stats`: `SUM(CASE WHEN status='printed' THEN 1 ELSE 0
END) ... GROUP BY nom, prenom, ddn, expire`. -/
def per_expire_cnt (db : List PrintEvent) (nom prenom ddn expire : Str) :
    Nat :=
  ((db.filter (fun e => decide (e.nom = nom ∧ e.prenom = prenom ∧
      e.ddn = ddn ∧ e.expire = expire))).map
    (fun e => if e.status = "printed".data then 1 else 0)).sum

/-- A ledger row counted by the aggregates. -/
def isPrinted (e : PrintEvent) : Bool :=
  decide (e.status = "printed".data)

theorem sum_case_eq_length_filter (l : List PrintEvent) :
    (l.map (fun e => if e.status = "printed".data then 1 else 0)).sum =
      (l.filter isPrinted).length := by
  induction l with
  | nil => rfl
  | cons e rest ih =>
    rw [List.map_cons, List.sum_cons, List.filter_cons]
    by_cases he : e.status = "printed".data
    · rw [if_pos he]
      have : isPrinted e = true := by simp [isPrinted, he]
      rw [if_pos this, List.length_cons, ih]
      omega
    · rw [if_neg he]
      have : ¬(isPrinted e = true) := by simp [isPrinted, he]
      rw [if_neg this, ih]
      omega

theorem filterMap_printed_eq (l : List PrintEvent) :
    l.filterMap
        (fun e => if e.status = "printed".data then some e.printed_at
          else none) =
      (l.filter isPrinted).map PrintEvent.printed_at := by
  induction l with
  | nil => rfl
  | cons e rest ih =>
    rw [List.filterMap_cons, List.filter_cons]
    by_cases he : e.status = "printed".data
    · rw [if_pos he]
      have : isPrinted e = true := by simp [isPrinted, he]
      rw [if_pos this, List.map_cons, ih]
    · rw [if_neg he]
      have : ¬(isPrinted e = true) := by simp [isPrinted, he]
      rw [if_neg this, ih]

/-- C4: the per-person aggregate counts only `printed` events (`simulated`
excluded); its last-print value is NULL exactly when no printed event exists
and otherwise is the maximal printed timestamp; the per-person-per-expiration
aggregate applies the same printed-only filter. -/
theorem ledger_aggregates_printed_only (db : List PrintEvent)
    (nom prenom ddn expire : Str) :
    v_person_stats_cnt db nom prenom ddn =
      ((personGroup db nom prenom ddn).filter isPrinted).length ∧
    (v_person_stats_last_print db nom prenom ddn = none ↔
      (personGroup db nom prenom ddn).filter isPrinted = []) ∧
    (∀ t, v_person_stats_last_print db nom prenom ddn = some t →
      t ∈ ((personGroup db nom prenom ddn).filter isPrinted).map
          PrintEvent.printed_at ∧
        ∀ u ∈ ((personGroup db nom prenom ddn).filter isPrinted).map
            PrintEvent.printed_at, strLt t u = false) ∧
    per_expire_cnt db nom prenom ddn expire =
      ((db.filter (fun e => decide (e.nom = nom ∧ e.prenom = prenom ∧
          e.ddn = ddn ∧ e.expire = expire))).filter isPrinted).length := by
  refine ⟨?_, ?_, ?_, ?_⟩
  · exact sum_case_eq_length_filter _
  · unfold v_person_stats_last_print
    rw [filterMap_printed_eq, foldMaxBy_eq_none_iff]
    simp
  · intro t ht
    unfold v_person_stats_last_print at ht
    rw [filterMap_printed_eq] at ht
    exact ⟨foldMaxBy_mem id ht, foldMaxBy_max id ht⟩
  · exact sum_case_eq_length_filter _

def c4Event1 : PrintEvent :=
  ⟨"DUPONT".data, "ALICE".data, "01/01/2000".data, "31/12/2026".data,
    some [], some [], none, "printed".data, "2024-01-01T10:00:00".data⟩

def c4Event2 : PrintEvent :=
  ⟨"DUPONT".data, "ALICE".data, "01/01/2000".data, "31/12/2026".data,
    some [], some [], none, "printed".data, "2024-02-01T10:00:00".data⟩

def c4Event3 : PrintEvent :=
  ⟨"DUPONT".data, "ALICE".data, "01/01/2000".data, "31/12/2026".data,
    some [], some [], none, "simulated".data, "2024-03-01T10:00:00".data⟩

def c4Db : List PrintEvent := [c4Event1, c4Event2, c4Event3]

/-- Witness for C4 at the spec's ledger-counting scenario: two `printed`
events and one `simulated` event for the same identity and expiration give
lifetime count 2, per-expiration count 2, and the later printed timestamp as
last print. -/
theorem ledger_aggregates_printed_only_witness :
    (v_person_stats_cnt c4Db "DUPONT".data "ALICE".data "01/01/2000".data =
      ((personGroup c4Db "DUPONT".data "ALICE".data "01/01/2000".data).filter
        isPrinted).length) ∧
    v_person_stats_cnt c4Db "DUPONT".data "ALICE".data "01/01/2000".data = 2 ∧
    per_expire_cnt c4Db "DUPONT".data "ALICE".data "01/01/2000".data
      "31/12/2026".data = 2 ∧
    v_person_stats_last_print c4Db "DUPONT".data "ALICE".data
      "01/01/2000".data = some "2024-02-01T10:00:00".data :=
  ⟨(ledger_aggregates_printed_only c4Db "DUPONT".data "ALICE".data
      "01/01/2000".data "31/12/2026".data).1,
    by decide, by decide, by decide⟩

/-! ### Latest contact (`db.fetch_latest_contact`) -/

/-- `db.PersonContact`. -/
structure PersonContact where
  nom : Str
  prenom : Str
  email : Str
  montant : Str
deriving DecidableEq

/-- SQLite `TRIM`: remove ASCII spaces from both ends. -/
def sqlTrim (s : Str) : Str :=
  ((s.dropWhile (fun c => c = ' ')).reverse.dropWhile (fun c => c = ' ')).reverse

/-- Python `a or b` on two optional rows. -/
def orOpt {α : Type} (a b : Option α) : Option α :=
  match a with
  | some x => some x
  | none => b

/-- The `WHERE` clause of `fetch_latest_contact`: exact match on the stripped
surname and given name, and on the stripped date of birth when one is
supplied and non-blank. -/
def contactMatch (e : PrintEvent) (nom prenom : Str) (ddn : Option Str) :
    Bool :=
  decide (e.nom = pyStrip nom) && decide (e.prenom = pyStrip prenom) &&
    (match ddn with
     | some d => if pyStrip d = [] then true else decide (e.ddn = pyStrip d)
     | none => true)

/-- `email IS NOT NULL AND TRIM(email) != ''`. -/
def hasEmailValue (e : PrintEvent) : Bool :=
  match e.email with
  | some em => decide (sqlTrim em ≠ [])
  | none => false

/-- The analogous non-empty test on the amount column (used to state what the
spec claims about amount sourcing). -/
def hasMontantValue (e : PrintEvent) : Bool :=
  match e.montant with
  | some m => decide (sqlTrim m ≠ [])
  | none => false

/-- `db.fetch_latest_contact`: the latest matching row with a non-empty email
supplies the email; `montant_row = latest_row or row_with_email` supplies the
amount (the latest matching row, whatever its amount). -/
def fetch_latest_contact (db : List PrintEvent) (nom prenom : Str)
    (ddn : Option Str) : Option PersonContact :=
  let matching := db.filter (fun e => contactMatch e nom prenom ddn)
  let row_with_email := foldMaxBy PrintEvent.printed_at
    (matching.filter hasEmailValue)
  let latest_row := foldMaxBy PrintEvent.printed_at matching
  match orOpt latest_row row_with_email with
  | none => none
  | some src =>
    let email_row := row_with_email.getD src
    let montant_row := (orOpt latest_row row_with_email).getD src
    some ⟨(if pyStrip src.nom = [] then pyStrip nom else pyStrip src.nom),
      (if pyStrip src.prenom = [] then pyStrip prenom else pyStrip src.prenom),
      pyStrip (email_row.email.getD []),
      pyStrip (montant_row.montant.getD [])⟩

def c5EventA : PrintEvent :=
  ⟨"N".data, "P".data, [], "31/12/2026".data, none, some "10".data, none,
    "printed".data, "2024-01-01T10:00:00".data⟩

def c5EventB : PrintEvent :=
  ⟨"N".data, "P".data, [], "31/12/2026".data, none, some [], none,
    "printed".data, "2024-02-01T10:00:00".data⟩

def c5Db : List PrintEvent := [c5EventA, c5EventB]

/-- C5 counterexample: with an older matching event carrying amount `"10"`
and a newer matching event carrying an empty amount,
`fetch_latest_contact` returns the empty amount — the amount is taken from
the latest event unconditionally, not from the most recent event with a
non-empty amount as claimed. -/
theorem fetch_latest_contact_amount_counterexample :
    ((fetch_latest_contact c5Db "N".data "P".data none).map
        PersonContact.montant = some []) ∧
      foldMaxBy PrintEvent.printed_at
        ((c5Db.filter (fun e => contactMatch e "N".data "P".data none)).filter
          hasMontantValue) = some c5EventA ∧
      pyStrip (c5EventA.montant.getD []) = "10".data := by
  refine ⟨by decide, by decide, by decide⟩

/-- C5 (amended: the email is sourced from the most recent matching event
with a non-empty email, falling back to the overall most recent matching
event; the amount is sourced from the overall most recent matching event
unconditionally, so the two fields may come from different events): none is
returned exactly when no event matches. -/
theorem fetch_latest_contact_field_sources (db : List PrintEvent)
    (nom prenom : Str) (ddn : Option Str) :
    (fetch_latest_contact db nom prenom ddn = none ↔
      db.filter (fun e => contactMatch e nom prenom ddn) = []) ∧
    (∀ c, fetch_latest_contact db nom prenom ddn = some c →
      (∃ e, e ∈ db.filter (fun e => contactMatch e nom prenom ddn) ∧
        (∀ u ∈ db.filter (fun e => contactMatch e nom prenom ddn),
          strLt e.printed_at u.printed_at = false) ∧
        c.montant = pyStrip (e.montant.getD [])) ∧
      ((db.filter (fun e => contactMatch e nom prenom ddn)).filter
          hasEmailValue ≠ [] →
        ∃ e, e ∈ (db.filter (fun e => contactMatch e nom prenom ddn)).filter
            hasEmailValue ∧
          (∀ u ∈ (db.filter (fun e => contactMatch e nom prenom ddn)).filter
              hasEmailValue, strLt e.printed_at u.printed_at = false) ∧
          c.email = pyStrip (e.email.getD [])) ∧
      ((db.filter (fun e => contactMatch e nom prenom ddn)).filter
          hasEmailValue = [] →
        ∃ e, e ∈ db.filter (fun e => contactMatch e nom prenom ddn) ∧
          (∀ u ∈ db.filter (fun e => contactMatch e nom prenom ddn),
            strLt e.printed_at u.printed_at = false) ∧
          c.email = pyStrip (e.email.getD []))) := by
  unfold fetch_latest_contact
  dsimp only
  cases hl : foldMaxBy PrintEvent.printed_at
      (db.filter (fun e => contactMatch e nom prenom ddn)) with
  | none =>
    have hM : db.filter (fun e => contactMatch e nom prenom ddn) = [] :=
      (foldMaxBy_eq_none_iff _ _).mp hl
    have hME : (db.filter (fun e => contactMatch e nom prenom ddn)).filter
        hasEmailValue = [] := by rw [hM]; rfl
    have hre : foldMaxBy PrintEvent.printed_at
        ((db.filter (fun e => contactMatch e nom prenom ddn)).filter
          hasEmailValue) = none := by
      rw [hME]; rfl
    rw [hre]
    constructor
    · simp [orOpt, hM]
    · intro c hc
      simp [orOpt] at hc
  | some src =>
    cases hre : foldMaxBy PrintEvent.printed_at
        ((db.filter (fun e => contactMatch e nom prenom ddn)).filter
          hasEmailValue) with
    | none =>
      have hME : (db.filter (fun e => contactMatch e nom prenom ddn)).filter
          hasEmailValue = [] := (foldMaxBy_eq_none_iff _ _).mp hre
      constructor
      · simp only [orOpt]
        constructor
        · intro hco; cases hco
        · intro hco
          rw [hco] at hl
          cases hl
      · intro c hc
        simp only [orOpt, Option.getD_some, Option.getD_none] at hc
        cases hc
        refine ⟨?_, ?_, ?_⟩
        · exact ⟨src, foldMaxBy_mem _ hl, foldMaxBy_max _ hl, rfl⟩
        · intro hne
          exact absurd hME hne
        · intro _
          exact ⟨src, foldMaxBy_mem _ hl, foldMaxBy_max _ hl, rfl⟩
    | some er =>
      constructor
      · simp only [orOpt]
        constructor
        · intro hco; cases hco
        · intro hco
          rw [hco] at hl
          cases hl
      · intro c hc
        simp only [orOpt, Option.getD_some] at hc
        cases hc
        refine ⟨?_, ?_, ?_⟩
        · exact ⟨src, foldMaxBy_mem _ hl, foldMaxBy_max _ hl, rfl⟩
        · intro _
          exact ⟨er, foldMaxBy_mem _ hre, foldMaxBy_max _ hre, rfl⟩
        · intro hME
          rw [hME] at hre
          cases hre

def c5wA : PrintEvent :=
  ⟨"N".data, "P".data, [], "31/12/2026".data, some "a@x".data, some [], none,
    "printed".data, "2024-01-01T10:00:00".data⟩

def c5wB : PrintEvent :=
  ⟨"N".data, "P".data, [], "31/12/2026".data, some [], some "12.00".data,
    none, "printed".data, "2024-02-01T10:00:00".data⟩

def c5wDb : List PrintEvent := [c5wA, c5wB]

/-- Witness for the amended C5 at the spec's field-independence scenario:
event A (older, email, no amount) and event B (newer, no email, amount)
yield A's email and B's amount. -/
theorem fetch_latest_contact_field_sources_witness :
    (fetch_latest_contact c5wDb "N".data "P".data none =
      some ⟨"N".data, "P".data, "a@x".data, "12.00".data⟩) ∧
    (∃ e, e ∈ c5wDb.filter (fun e => contactMatch e "N".data "P".data none) ∧
      (∀ u ∈ c5wDb.filter (fun e => contactMatch e "N".data "P".data none),
        strLt e.printed_at u.printed_at = false) ∧
      (PersonContact.montant ⟨"N".data, "P".data, "a@x".data, "12.00".data⟩) =
        pyStrip (e.montant.getD [])) :=
  ⟨by decide,
    ((fetch_latest_contact_field_sources c5wDb "N".data "P".data none).2
      ⟨"N".data, "P".data, "a@x".data, "12.00".data⟩ (by decide)).1⟩

/-! ### Roster rows and the date-of-birth ambiguity resolver
(`src/app/imports.py`) -/

/-- One roster row with the canonical columns of `lire_tableau` (plus the
gui-derived `Derniere`/`Compteur` fields carried by in-memory rows). -/
structure Row where
  Nom : Str
  Prenom : Str  -- source column name: Prénom (accented letters are not Lean identifier characters)
  Date_de_naissance : Str
  Expire_le : Str
  Email : Str
  Montant : Str
  ErreurValide : Str
  Derniere : Str
  Compteur : Nat
deriving DecidableEq

/-- `imports.LookupKey`: lower-cased normalized (surname, given name). -/
abbrev LookupKey := Str × Str

/-- Association-list lookup (`dict.get`). -/
def assocFind {β : Type} : List (LookupKey × β) → LookupKey → Option β
  | [], _ => none
  | (k', v) :: rest, k => if k' = k then some v else assocFind rest k

/-- The lower-cased normalized key of a roster row. -/
def ddnRowKey (r : Row) : LookupKey :=
  ((normalize_name r.Nom).map pyLower, (normalize_name r.Prenom).map pyLower)

/-- `tmp.setdefault(key, set()); if ddn: tmp[key].add(ddn)` on an
insertion-ordered association list whose values keep set semantics. -/
def addDdnObservation : List (LookupKey × List Str) → LookupKey → Str →
    List (LookupKey × List Str)
  | [], k, d => [(k, if d = [] then [] else [d])]
  | (k', vs) :: rest, k, d =>
    if k' = k then
      (k', if d = [] ∨ d ∈ vs then vs else vs ++ [d]) :: rest
    else (k', vs) :: addDdnObservation rest k d

/-- One loop iteration of `build_ddn_lookup_from_rows` (rows lacking both
names contribute nothing). -/
def ddnFoldStep (tmp : List (LookupKey × List Str)) (r : Row) :
    List (LookupKey × List Str) :=
  if (ddnRowKey r).1 = [] ∧ (ddnRowKey r).2 = [] then tmp
  else addDdnObservation tmp (ddnRowKey r) (pyStrip r.Date_de_naissance)

/-- The resolution rule of `build_ddn_lookup_from_rows`: a singleton set
resolves to its value, anything else to the unknown marker. -/
def resolveDdnSet (vs : List Str) : Option Str :=
  match vs with
  | [v] => some v
  | _ => none

/-- `imports.build_ddn_lookup_from_rows`: group the trimmed non-empty dates
of birth per key, then resolve each key to its single observed value or to
the unknown marker (`none`). -/
def build_ddn_lookup_from_rows (rows : List Row) :
    List (LookupKey × Option Str) :=
  (rows.foldl ddnFoldStep []).map (fun p => (p.1, resolveDdnSet p.2))

/-- Whether a row reaches the lookup under key `k`. -/
def contributesTo (r : Row) (k : LookupKey) : Bool :=
  decide (¬((ddnRowKey r).1 = [] ∧ (ddnRowKey r).2 = [])) &&
    decide (ddnRowKey r = k)

/-- The trimmed, non-empty dates of birth observed among the rows
contributing to key `k`, in row order (with repetitions). -/
def observedDdns (rows : List Row) (k : LookupKey) : List Str :=
  ((rows.filter (fun r => contributesTo r k)).map
    (fun r => pyStrip r.Date_de_naissance)).filter (fun d => decide (d ≠ []))

theorem addDdn_find_same (tmp : List (LookupKey × List Str)) (key : LookupKey)
    (d : Str) :
    assocFind (addDdnObservation tmp key d) key =
      some (match assocFind tmp key with
        | some vs => if d = [] ∨ d ∈ vs then vs else vs ++ [d]
        | none => if d = [] then [] else [d]) := by
  induction tmp with
  | nil => simp [addDdnObservation, assocFind]
  | cons p rest ih =>
    obtain ⟨k', vs⟩ := p
    unfold addDdnObservation
    by_cases hk : k' = key
    · rw [if_pos hk]
      unfold assocFind
      rw [if_pos hk, if_pos hk]
    · rw [if_neg hk]
      unfold assocFind
      rw [if_neg hk, if_neg hk]
      exact ih

theorem addDdn_find_ne (tmp : List (LookupKey × List Str)) (key k : LookupKey)
    (d : Str) (hne : key ≠ k) :
    assocFind (addDdnObservation tmp key d) k = assocFind tmp k := by
  induction tmp with
  | nil => simp [addDdnObservation, assocFind, hne]
  | cons p rest ih =>
    obtain ⟨k', vs⟩ := p
    unfold addDdnObservation
    by_cases hk : k' = key
    · rw [if_pos hk]
      unfold assocFind
      rw [hk, if_neg hne, if_neg hne]
    · rw [if_neg hk]
      unfold assocFind
      by_cases hkk : k' = k
      · rw [if_pos hkk, if_pos hkk]
      · rw [if_neg hkk, if_neg hkk]
        exact ih

theorem observedDdns_cons (r : Row) (rows : List Row) (k : LookupKey) :
    observedDdns (r :: rows) k =
      (if contributesTo r k = true ∧ pyStrip r.Date_de_naissance ≠ [] then
        [pyStrip r.Date_de_naissance] else []) ++ observedDdns rows k := by
  unfold observedDdns
  rw [List.filter_cons]
  by_cases hc : contributesTo r k = true
  · rw [if_pos hc, List.map_cons, List.filter_cons]
    by_cases hd : pyStrip r.Date_de_naissance = []
    · rw [if_neg (by simp [hd]), if_neg (by simp [hd])]
      rfl
    · rw [if_pos (by simp [hd]), if_pos ⟨hc, hd⟩]
      rfl
  · rw [if_neg hc, if_neg (by intro hx; exact hc hx.1)]
    rfl

/-- Invariant of the fold: an existing entry accumulates exactly the newly
observed values, stays duplicate-free and never holds the empty string. -/
theorem ddnFold_char_some :
    ∀ (rows : List Row) (tmp0 : List (LookupKey × List Str)) (k : LookupKey)
      (vs : List Str),
      assocFind tmp0 k = some vs → vs.Nodup → [] ∉ vs →
      ∃ vs', assocFind (rows.foldl ddnFoldStep tmp0) k = some vs' ∧
        (∀ x, x ∈ vs' ↔ (x ∈ vs ∨ x ∈ observedDdns rows k)) ∧
        vs'.Nodup ∧ [] ∉ vs' := by
  intro rows
  induction rows with
  | nil =>
    intro tmp0 k vs hfind hnd hne
    refine ⟨vs, hfind, ?_, hnd, hne⟩
    intro x
    simp [observedDdns]
  | cons r rest ih =>
    intro tmp0 k vs hfind hnd hne
    rw [List.foldl_cons]
    rw [observedDdns_cons]
    unfold ddnFoldStep
    by_cases hskip : (ddnRowKey r).1 = [] ∧ (ddnRowKey r).2 = []
    · rw [if_pos hskip]
      have hcon : contributesTo r k = false := by
        unfold contributesTo
        simp [hskip]
      rw [hcon]
      obtain ⟨vs', h1, h2, h3, h4⟩ := ih tmp0 k vs hfind hnd hne
      refine ⟨vs', h1, ?_, h3, h4⟩
      intro x
      rw [h2 x]
      simp
    · rw [if_neg hskip]
      by_cases hkey : ddnRowKey r = k
      · have hskip' : ¬(k.1 = [] ∧ k.2 = []) := by
          rw [← hkey]
          exact hskip
        have hcon : contributesTo r k = true := by
          unfold contributesTo
          rw [hkey]
          simp [hskip']
        set d := pyStrip r.Date_de_naissance with hd
        by_cases hdnil : d = []
        · have hvs : assocFind (addDdnObservation tmp0 (ddnRowKey r) d) k =
              some vs := by
            rw [hkey, addDdn_find_same, hfind]
            dsimp only
            rw [if_pos (Or.inl hdnil)]
          obtain ⟨vs', h1, h2, h3, h4⟩ := ih _ k vs hvs hnd hne
          refine ⟨vs', h1, ?_, h3, h4⟩
          intro x
          rw [h2 x]
          rw [if_neg (by intro hx; exact hx.2 hdnil)]
          simp
        · by_cases hdin : d ∈ vs
          · have hvs : assocFind (addDdnObservation tmp0 (ddnRowKey r) d) k =
                some vs := by
              rw [hkey, addDdn_find_same, hfind]
              dsimp only
              rw [if_pos (Or.inr hdin)]
            obtain ⟨vs', h1, h2, h3, h4⟩ := ih _ k vs hvs hnd hne
            refine ⟨vs', h1, ?_, h3, h4⟩
            intro x
            rw [h2 x]
            rw [if_pos ⟨hcon, hdnil⟩]
            simp
            constructor
            · intro hx
              rcases hx with hx | hx
              · left; exact hx
              · right; right; exact hx
            · intro hx
              rcases hx with hx | hx | hx
              · left; exact hx
              · left; rw [hx]; exact hdin
              · right; exact hx
          · have hvs : assocFind (addDdnObservation tmp0 (ddnRowKey r) d) k =
                some (vs ++ [d]) := by
              rw [hkey, addDdn_find_same, hfind]
              dsimp only
              rw [if_neg (by
                intro hx
                rcases hx with hx | hx
                · exact hdnil hx
                · exact hdin hx)]
            have hnd' : (vs ++ [d]).Nodup := by
              rw [List.nodup_append]
              refine ⟨hnd, List.nodup_singleton _, ?_⟩
              intro x hx
              simp
              intro he
              rw [he] at hx
              exact hdin hx
            have hne' : [] ∉ vs ++ [d] := by
              rw [List.mem_append]
              intro hx
              rcases hx with hx | hx
              · exact hne hx
              · simp at hx
                exact hdnil hx
            obtain ⟨vs', h1, h2, h3, h4⟩ := ih _ k (vs ++ [d]) hvs hnd' hne'
            refine ⟨vs', h1, ?_, h3, h4⟩
            intro x
            rw [h2 x]
            rw [if_pos ⟨hcon, hdnil⟩]
            simp
            constructor
            · intro hx
              rcases hx with (hx | hx) | hx
              · left; exact hx
              · right; left; exact hx
              · right; right; exact hx
            · intro hx
              rcases hx with hx | hx | hx
              · left; left; exact hx
              · left; right; exact hx
              · right; exact hx
      · have hcon : contributesTo r k = false := by
          unfold contributesTo
          simp [hkey]
        rw [hcon]
        have hvs : assocFind (addDdnObservation tmp0 (ddnRowKey r)
            (pyStrip r.Date_de_naissance)) k = some vs := by
          rw [addDdn_find_ne _ _ _ _ hkey]
          exact hfind
        obtain ⟨vs', h1, h2, h3, h4⟩ := ih _ k vs hvs hnd hne
        refine ⟨vs', h1, ?_, h3, h4⟩
        intro x
        rw [h2 x]
        simp

/-- Fold invariant for a key still absent from the accumulator. -/
theorem ddnFold_char_none :
    ∀ (rows : List Row) (tmp0 : List (LookupKey × List Str)) (k : LookupKey),
      assocFind tmp0 k = none →
      (rows.any (fun r => contributesTo r k) = false →
        assocFind (rows.foldl ddnFoldStep tmp0) k = none) ∧
      (rows.any (fun r => contributesTo r k) = true →
        ∃ vs', assocFind (rows.foldl ddnFoldStep tmp0) k = some vs' ∧
          (∀ x, x ∈ vs' ↔ x ∈ observedDdns rows k) ∧ vs'.Nodup ∧
          [] ∉ vs') := by
  intro rows
  induction rows with
  | nil =>
    intro tmp0 k hfind
    constructor
    · intro _; exact hfind
    · intro hany; cases hany
  | cons r rest ih =>
    intro tmp0 k hfind
    rw [List.foldl_cons, List.any_cons, observedDdns_cons]
    unfold ddnFoldStep
    by_cases hskip : (ddnRowKey r).1 = [] ∧ (ddnRowKey r).2 = []
    · have hcon : contributesTo r k = false := by
        unfold contributesTo
        simp [hskip]
      rw [if_pos hskip, hcon, Bool.false_or]
      have := ih tmp0 k hfind
      constructor
      · intro hany
        exact this.1 hany
      · intro hany
        obtain ⟨vs', h1, h2, h3, h4⟩ := this.2 hany
        exact ⟨vs', h1, by intro x; rw [h2 x]; simp, h3, h4⟩
    · rw [if_neg hskip]
      by_cases hkey : ddnRowKey r = k
      · have hskip' : ¬(k.1 = [] ∧ k.2 = []) := by
          rw [← hkey]; exact hskip
        have hcon : contributesTo r k = true := by
          unfold contributesTo
          rw [hkey]
          simp [hskip']
        rw [hcon, Bool.true_or]
        set d := pyStrip r.Date_de_naissance with hd
        by_cases hdnil : d = []
        · have hvs : assocFind (addDdnObservation tmp0 (ddnRowKey r) d) k =
              some [] := by
            rw [hkey, addDdn_find_same, hfind]
            dsimp only
            rw [if_pos hdnil]
          obtain ⟨vs', h1, h2, h3, h4⟩ := ddnFold_char_some rest _ k [] hvs
            (List.nodup_nil) (by simp)
          constructor
          · intro hany; cases hany
          · intro _
            refine ⟨vs', h1, ?_, h3, h4⟩
            intro x
            rw [h2 x]
            rw [if_neg (by intro hx; exact hx.2 hdnil)]
            simp
        · have hvs : assocFind (addDdnObservation tmp0 (ddnRowKey r) d) k =
              some [d] := by
            rw [hkey, addDdn_find_same, hfind]
            dsimp only
            rw [if_neg hdnil]
          obtain ⟨vs', h1, h2, h3, h4⟩ := ddnFold_char_some rest _ k [d] hvs
            (List.nodup_singleton _) (by simp [Ne.symm hdnil])
          constructor
          · intro hany; cases hany
          · intro _
            refine ⟨vs', h1, ?_, h3, h4⟩
            intro x
            rw [h2 x]
            rw [if_pos (by exact ⟨rfl, hdnil⟩)]
            simp
      · have hcon : contributesTo r k = false := by
          unfold contributesTo
          simp [hkey]
        rw [hcon, Bool.false_or]
        have hfind' : assocFind (addDdnObservation tmp0 (ddnRowKey r)
            (pyStrip r.Date_de_naissance)) k = none := by
          rw [addDdn_find_ne _ _ _ _ hkey]
          exact hfind
        have := ih _ k hfind'
        constructor
        · intro hany
          exact this.1 hany
        · intro hany
          obtain ⟨vs', h1, h2, h3, h4⟩ := this.2 hany
          exact ⟨vs', h1, by intro x; rw [h2 x]; simp, h3, h4⟩

theorem assocFind_map {β γ : Type} (f : β → γ) :
    ∀ (l : List (LookupKey × β)) (k : LookupKey),
      assocFind (l.map (fun p => (p.1, f p.2))) k =
        (assocFind l k).map f := by
  intro l
  induction l with
  | nil => intro k; rfl
  | cons p rest ih =>
    intro k
    obtain ⟨k', v⟩ := p
    rw [List.map_cons]
    unfold assocFind
    by_cases hk : k' = k
    · rw [if_pos hk, if_pos hk]
      rfl
    · rw [if_neg hk, if_neg hk]
      exact ih k

theorem nodup_all_eq_singleton {l : List Str} {d : Str} (hnd : l.Nodup)
    (hmem : d ∈ l) (hall : ∀ x ∈ l, x = d) : l = [d] := by
  cases l with
  | nil => cases hmem
  | cons v rest =>
    have hv : v = d := hall v (List.mem_cons_self _ _)
    cases rest with
    | nil => rw [hv]
    | cons w t =>
      exfalso
      have hw : w = d := hall w (List.mem_cons_of_mem _ (List.mem_cons_self _ _))
      rw [List.nodup_cons] at hnd
      apply hnd.1
      rw [hv, ← hw]
      exact List.mem_cons_self _ _

theorem two_mem_le_length {l : List Str} {x y : Str} (hx : x ∈ l) (hy : y ∈ l)
    (hne : x ≠ y) : 2 ≤ l.length := by
  cases l with
  | nil => cases hx
  | cons v rest =>
    cases rest with
    | nil =>
      simp at hx hy
      rw [hx, ← hy] at hne
      cases hne rfl
    | cons w t => simp

theorem mem_observed_any {rows : List Row} {k : LookupKey} {d : Str}
    (h : d ∈ observedDdns rows k) :
    rows.any (fun r => contributesTo r k) = true := by
  unfold observedDdns at h
  rw [List.mem_filter] at h
  obtain ⟨h1, _⟩ := h
  rw [List.mem_map] at h1
  obtain ⟨r, hr, _⟩ := h1
  rw [List.mem_filter] at hr
  rw [List.any_eq_true]
  exact ⟨r, hr.1, hr.2⟩

/-- C2: `build_ddn_lookup_from_rows` holds a key exactly when a row with a
non-empty normalized name maps to it; the key resolves to the single
observed trimmed date of birth when exactly one distinct non-empty value
occurs among its rows, and to the unknown marker (`none`) when zero or
two-or-more distinct values occur. -/
theorem build_ddn_lookup_resolves (rows : List Row) (k : LookupKey) :
    (assocFind (build_ddn_lookup_from_rows rows) k = none ↔
      rows.any (fun r => contributesTo r k) = false) ∧
    (∀ d, assocFind (build_ddn_lookup_from_rows rows) k = some (some d) ↔
      (d ∈ observedDdns rows k ∧ ∀ x ∈ observedDdns rows k, x = d)) ∧
    (assocFind (build_ddn_lookup_from_rows rows) k = some none ↔
      (rows.any (fun r => contributesTo r k) = true ∧
        (observedDdns rows k = [] ∨
          ∃ x ∈ observedDdns rows k, ∃ y ∈ observedDdns rows k, x ≠ y))) := by
  unfold build_ddn_lookup_from_rows
  rw [assocFind_map resolveDdnSet]
  cases hany : rows.any (fun r => contributesTo r k) with
  | false =>
    have hnone := (ddnFold_char_none rows [] k rfl).1 hany
    rw [hnone]
    refine ⟨by simp, ?_, by simp⟩
    intro d
    simp only [Option.map_none']
    constructor
    · intro hco; cases hco
    · intro hco
      rw [mem_observed_any hco.1] at hany
      cases hany
  | true =>
    obtain ⟨vs', h1, h2, h3, h4⟩ := (ddnFold_char_none rows [] k rfl).2 hany
    rw [h1]
    simp only [Option.map_some']
    refine ⟨by simp, ?_, ?_⟩
    · intro d
      constructor
      · intro hco
        simp only [Option.some_inj] at hco
        have hvs : vs' = [d] := by
          cases hv : vs' with
          | nil => rw [hv] at hco; cases hco
          | cons v rest =>
            cases hr : rest with
            | nil =>
              rw [hv, hr] at hco
              simp [resolveDdnSet] at hco
              rw [hco]
            | cons w t =>
              rw [hv, hr] at hco
              simp [resolveDdnSet] at hco
        constructor
        · rw [← h2]
          rw [hvs]
          exact List.mem_cons_self _ _
        · intro x hx
          rw [← h2] at hx
          rw [hvs] at hx
          simpa using hx
      · intro ⟨hd, hall⟩
        have hdm : d ∈ vs' := (h2 d).mpr hd
        have hvs : vs' = [d] :=
          nodup_all_eq_singleton h3 hdm (fun x hx => hall x ((h2 x).mp hx))
        simp [hvs, resolveDdnSet]
    · constructor
      · intro hco
        simp only [Option.some_inj] at hco
        refine ⟨trivial, ?_⟩
        cases hv : vs' with
        | nil =>
          left
          rw [List.eq_nil_iff_forall_not_mem]
          intro x hx
          have := (h2 x).mpr hx
          rw [hv] at this
          cases this
        | cons v rest =>
          cases hr : rest with
          | nil =>
            exfalso
            rw [hv, hr] at hco
            simp [resolveDdnSet] at hco
          | cons w t =>
            right
            have hvm : v ∈ vs' := by rw [hv]; exact List.mem_cons_self _ _
            have hwm : w ∈ vs' := by
              rw [hv, hr]
              exact List.mem_cons_of_mem _ (List.mem_cons_self _ _)
            have hvw : v ≠ w := by
              intro he
              rw [hv, hr] at h3
              rw [List.nodup_cons] at h3
              apply h3.1
              rw [he]
              exact List.mem_cons_self _ _
            exact ⟨v, (h2 v).mp hvm, w, (h2 w).mp hwm, hvw⟩
      · intro ⟨_, hco⟩
        rcases hco with hco | ⟨x, hx, y, hy, hxy⟩
        · have hvs : vs' = [] := by
            rw [List.eq_nil_iff_forall_not_mem]
            intro x hx
            have := (h2 x).mp hx
            rw [hco] at this
            cases this
          simp [hvs, resolveDdnSet]
        · have hxm : x ∈ vs' := (h2 x).mpr hx
          have hym : y ∈ vs' := (h2 y).mpr hy
          have hlen := two_mem_le_length hxm hym hxy
          cases hv : vs' with
          | nil => rw [hv] at hxm; cases hxm
          | cons v rest =>
            cases hr : rest with
            | nil =>
              exfalso
              rw [hv, hr] at hlen
              simp at hlen
            | cons w t => rfl

def c2r1 : Row := ⟨"Dup".data, "Test".data, "01/01/2000".data, [], [], [],
  [], [], 0⟩

def c2r2 : Row := ⟨"Dup".data, "Test".data, "02/02/2000".data, [], [], [],
  [], [], 0⟩

def c2r3 : Row := ⟨"Unique".data, "One".data, "03/03/2000".data, [], [], [],
  [], [], 0⟩

def c2Rows : List Row := [c2r1, c2r2, c2r3]

/-- Witness for C2 at the spec's ambiguity scenario: two conflicting dates
for (dup, test) resolve to the unknown marker, the single date for
(unique, one) resolves to itself. -/
theorem build_ddn_lookup_resolves_witness :
    assocFind (build_ddn_lookup_from_rows c2Rows)
        ("unique".data, "one".data) = some (some "03/03/2000".data) ∧
      assocFind (build_ddn_lookup_from_rows c2Rows)
        ("dup".data, "test".data) = some none :=
  ⟨((build_ddn_lookup_resolves c2Rows ("unique".data, "one".data)).2.1
      "03/03/2000".data).mpr (by decide),
    ((build_ddn_lookup_resolves c2Rows ("dup".data, "test".data)).2.2).mpr
      (by decide)⟩

/-! ### Name-only CSV import (`imports.import_already_printed_csv`) -/

/-- First-occurrence deduplication (`SELECT DISTINCT`). -/
def dedupFirst : List Str → List Str
  | [] => []
  | x :: rest =>
    if x ∈ dedupFirst rest then dedupFirst rest else x :: dedupFirst rest

/-- The distinct stored `ddn` values of the events whose lower-cased names
match `key`, trimmed, the blank ones dropped — the `ddn_candidates` list of
`import_already_printed_csv`. -/
def ddnCandidates (db : List PrintEvent) (key : LookupKey) : List Str :=
  ((dedupFirst ((db.filter (fun e =>
      decide (e.nom.map pyLower = key.1 ∧ e.prenom.map pyLower = key.2))).map
    PrintEvent.ddn)).map pyStrip).filter (fun d => decide (d ≠ []))

/-- The date of birth recorded for one imported name-only row: a single
distinct history value wins; several distinct values fall back to the empty
string; no history value falls back to the roster lookup, and the unknown
marker (or an absent lookup) falls back to the empty string. -/
def importRowDdn (db : List PrintEvent) (key : LookupKey)
    (lookup : Option (List (LookupKey × Option Str))) : Str :=
  match ddnCandidates db key with
  | [d] => d
  | [] =>
    match lookup with
    | some l =>
      match assocFind l key with
      | some (some d) => d
      | _ => []
    | none => []
  | _ => []

/-- `db.record_print` called with `status="printed"` and no email, amount or
payload: the appended ledger row. -/
def record_print_event (nom prenom ddn expire : Str) (now : Str) :
    PrintEvent :=
  ⟨pyStrip nom, pyStrip prenom, pyStrip ddn, pyStrip expire, some [],
    some [], none, "printed".data, now⟩

/-- One loop iteration of `import_already_printed_csv` over a `nom;prenom`
CSV row: state is (ledger, imported, skipped); rows whose two names
normalize to empty are skipped, the others are recorded as printed with the
resolved date of birth. -/
def importCsvStep (lookup : Option (List (LookupKey × Option Str)))
    (expire : Str) (now : Str) (st : List PrintEvent × Nat × Nat)
    (raw : Str × Str) : List PrintEvent × Nat × Nat :=
  let nom := normalize_name (pyStrip raw.1)
  let prenom := normalize_name (pyStrip raw.2)
  if nom = [] ∧ prenom = [] then (st.1, st.2.1, st.2.2 + 1)
  else
    let key := (nom.map pyLower, prenom.map pyLower)
    let ddn := importRowDdn st.1 key lookup
    (st.1 ++ [record_print_event nom prenom ddn expire now],
      st.2.1 + 1, st.2.2)

/-- `imports.import_already_printed_csv` over an already-parsed CSV. -/
def import_already_printed_csv (db0 : List PrintEvent)
    (rows : List (Str × Str)) (expire : Str)
    (lookup : Option (List (LookupKey × Option Str))) (now : Str) :
    List PrintEvent × Nat × Nat :=
  rows.foldl (importCsvStep lookup expire now) (db0, 0, 0)

/-- C3: the date of birth recorded with each imported row follows the
documented precedence with respect to the ledger state at that row: exactly
one distinct non-empty trimmed history value is used as is; several distinct
values yield the empty string; with none, the roster-derived lookup value is
used, the unknown marker or an absent lookup yielding the empty string. -/
theorem import_csv_ddn_precedence (db : List PrintEvent)
    (lookup : Option (List (LookupKey × Option Str))) (expire now : Str)
    (rawNom rawPrenom : Str) (imported skipped : Nat)
    (hkeep : ¬(normalize_name (pyStrip rawNom) = [] ∧
      normalize_name (pyStrip rawPrenom) = [])) :
    ∃ e, importCsvStep lookup expire now (db, imported, skipped)
        (rawNom, rawPrenom) = (db ++ [e], imported + 1, skipped) ∧
      e.nom = normalize_name (pyStrip rawNom) ∧
      e.prenom = normalize_name (pyStrip rawPrenom) ∧
      e.status = "printed".data ∧
      (∀ d, ddnCandidates db ((normalize_name (pyStrip rawNom)).map pyLower,
          (normalize_name (pyStrip rawPrenom)).map pyLower) = [d] →
        e.ddn = d) ∧
      (∀ cs, ddnCandidates db ((normalize_name (pyStrip rawNom)).map pyLower,
          (normalize_name (pyStrip rawPrenom)).map pyLower) = cs →
        2 ≤ cs.length → e.ddn = []) ∧
      (ddnCandidates db ((normalize_name (pyStrip rawNom)).map pyLower,
          (normalize_name (pyStrip rawPrenom)).map pyLower) = [] →
        ((∀ l d, lookup = some l →
            assocFind l ((normalize_name (pyStrip rawNom)).map pyLower,
              (normalize_name (pyStrip rawPrenom)).map pyLower) =
              some (some d) → e.ddn = pyStrip d) ∧
          (∀ l, lookup = some l →
            assocFind l ((normalize_name (pyStrip rawNom)).map pyLower,
              (normalize_name (pyStrip rawPrenom)).map pyLower) =
              some none → e.ddn = []) ∧
          (∀ l, lookup = some l →
            assocFind l ((normalize_name (pyStrip rawNom)).map pyLower,
              (normalize_name (pyStrip rawPrenom)).map pyLower) = none →
            e.ddn = []) ∧
          (lookup = none → e.ddn = []))) := by
  unfold importCsvStep
  dsimp only
  rw [if_neg hkeep]
  set key := ((normalize_name (pyStrip rawNom)).map pyLower,
    (normalize_name (pyStrip rawPrenom)).map pyLower) with hkeydef
  refine ⟨record_print_event (normalize_name (pyStrip rawNom))
    (normalize_name (pyStrip rawPrenom)) (importRowDdn db key lookup)
    expire now, rfl, ?_, ?_, rfl, ?_, ?_, ?_⟩
  · exact pyStrip_eq_self (normalize_name_head _) (normalize_name_getLast _)
  · exact pyStrip_eq_self (normalize_name_head _) (normalize_name_getLast _)
  · intro d hd
    show pyStrip (importRowDdn db key lookup) = d
    unfold importRowDdn
    rw [hd]
    have hdm : d ∈ ddnCandidates db key := by
      rw [hd]; exact List.mem_cons_self _ _
    unfold ddnCandidates at hdm
    rw [List.mem_filter] at hdm
    obtain ⟨hdm1, _⟩ := hdm
    rw [List.mem_map] at hdm1
    obtain ⟨raw, _, hraw⟩ := hdm1
    rw [← hraw]
    exact pyStrip_idem raw
  · intro cs hcs hlen
    show pyStrip (importRowDdn db key lookup) = []
    unfold importRowDdn
    rw [hcs]
    cases cs with
    | nil => simp at hlen
    | cons x rest =>
      cases rest with
      | nil => simp at hlen
      | cons y t => rfl
  · intro hnil
    refine ⟨?_, ?_, ?_, ?_⟩
    · intro l d hl hfind
      show pyStrip (importRowDdn db key lookup) = pyStrip d
      unfold importRowDdn
      rw [hnil, hl]
      dsimp only
      rw [hfind]
    · intro l hl hfind
      show pyStrip (importRowDdn db key lookup) = []
      unfold importRowDdn
      rw [hnil, hl]
      dsimp only
      rw [hfind]
      rfl
    · intro l hl hfind
      show pyStrip (importRowDdn db key lookup) = []
      unfold importRowDdn
      rw [hnil, hl]
      dsimp only
      rw [hfind]
      rfl
    · intro hl
      show pyStrip (importRowDdn db key lookup) = []
      unfold importRowDdn
      rw [hnil, hl]
      rfl

def c3Db : List PrintEvent :=
  [⟨"DUP".data, "TEST".data, "01/01/2000".data, "31/12/2025".data, some [],
    some [], none, "printed".data, "2024-01-01T10:00:00".data⟩]

/-- Witness for C3: importing the name-only row `DUP;TEST` against a history
holding exactly one distinct date of birth records that date. -/
theorem import_csv_ddn_precedence_witness :
    ∃ e, importCsvStep none "31/12/2026".data "2024-05-01T10:00:00".data
        (c3Db, 0, 0) ("DUP".data, "TEST".data) = (c3Db ++ [e], 0 + 1, 0) ∧
      e.ddn = "01/01/2000".data := by
  obtain ⟨e, he, _, _, _, hone, _, _⟩ := import_csv_ddn_precedence c3Db none
    "31/12/2026".data "2024-05-01T10:00:00".data "DUP".data "TEST".data 0 0
    (by decide)
  exact ⟨e, he, hone "01/01/2000".data (by decide)⟩

/-! ### Print-status filtering (`gui.apply_filter`) -/

/-- The four-component key of the per-expiration counter map. -/
abbrev ExpKey := Str × Str × Str × Str

/-- The exact key `(nom, prenom, ddn, expiration)` built from a roster row by
`gui.apply_filter` (names stripped and lower-cased, ddn stripped). -/
def rowExpKeyExact (r : Row) (expiration : Str) : ExpKey :=
  ((pyStrip r.Nom).map pyLower, (pyStrip r.Prenom).map pyLower,
    pyStrip r.Date_de_naissance, expiration)

/-- The same key with the date of birth replaced by the empty-string
wildcard. -/
def rowExpKeyWild (r : Row) (expiration : Str) : ExpKey :=
  ((pyStrip r.Nom).map pyLower, (pyStrip r.Prenom).map pyLower, [],
    expiration)

/-- `per_expire_count.get(keyx_exact, per_expire_count.get(keyx_wild, 0))`. -/
def cnt_exp_for (per : ExpKey → Option Nat) (r : Row) (expiration : Str) :
    Nat :=
  match per (rowExpKeyExact r expiration) with
  | some n => n
  | none =>
    match per (rowExpKeyWild r expiration) with
    | some n => n
    | none => 0

/-- Whether `needle` is an initial run of `hay`. -/
def strHasStart : Str → Str → Bool
  | [], _ => true
  | _ :: _, [] => false
  | a :: as, b :: bs => decide (a = b) && strHasStart as bs

/-- Python's substring test `needle in hay`. -/
def strContains : Str → Str → Bool
  | [], needle => decide (needle = [])
  | c :: rest, needle => strHasStart needle (c :: rest) || strContains rest needle

/-- The row predicate `ok` of `gui.apply_filter`; `nomFilter` and
`prenomFilter` arrive stripped and lower-cased, `expiration` stripped, and
`mode` is one of `a_imprimer`, `deja`, `tout`. -/
def apply_filter_ok (per : ExpKey → Option Nat)
    (nomFilter prenomFilter expiration mode : Str) (r : Row) : Bool :=
  if nomFilter ≠ [] ∧
      ¬strContains ((pyStrip r.Nom).map pyLower) nomFilter = true then false
  else if prenomFilter ≠ [] ∧
      ¬strContains ((pyStrip r.Prenom).map pyLower) prenomFilter = true
    then false
  else if expiration ≠ [] ∧ pyStrip r.Expire_le ≠ expiration then false
  else if mode ≠ "tout".data then
    if mode = "a_imprimer".data ∧ 0 < cnt_exp_for per r expiration then false
    else if mode = "deja".data ∧ cnt_exp_for per r expiration = 0 then false
    else true
  else true

/-- C8: classification first consults the exact key, then — only when the
exact key is absent — the wildcard key with the empty-string date of birth,
before concluding a zero count; a row without a date of birth has identical
exact and wildcard keys; under mode `a_imprimer` a row passing the text
filters is kept exactly when its count is zero, under mode `deja` exactly
when it is positive. -/
theorem apply_filter_wildcard_lookup (per : ExpKey → Option Nat) (r : Row)
    (nomFilter prenomFilter expiration : Str) :
    (∀ n, per (rowExpKeyExact r expiration) = some n →
      cnt_exp_for per r expiration = n) ∧
    (per (rowExpKeyExact r expiration) = none →
      ∀ n, per (rowExpKeyWild r expiration) = some n →
        cnt_exp_for per r expiration = n) ∧
    (per (rowExpKeyExact r expiration) = none →
      per (rowExpKeyWild r expiration) = none →
        cnt_exp_for per r expiration = 0) ∧
    (pyStrip r.Date_de_naissance = [] →
      rowExpKeyExact r expiration = rowExpKeyWild r expiration) ∧
    (nomFilter = [] → prenomFilter = [] →
      (expiration = [] ∨ pyStrip r.Expire_le = expiration) →
      (apply_filter_ok per nomFilter prenomFilter expiration
          "a_imprimer".data r = true ↔
        cnt_exp_for per r expiration = 0) ∧
      (apply_filter_ok per nomFilter prenomFilter expiration
          "deja".data r = true ↔
        0 < cnt_exp_for per r expiration)) := by
  refine ⟨?_, ?_, ?_, ?_, ?_⟩
  · intro n hn
    unfold cnt_exp_for
    rw [hn]
  · intro he n hn
    unfold cnt_exp_for
    rw [he, hn]
  · intro he hw
    unfold cnt_exp_for
    rw [he, hw]
  · intro hd
    unfold rowExpKeyExact rowExpKeyWild
    rw [hd]
  · intro hn hp hexp
    have hpass : ∀ mode, apply_filter_ok per nomFilter prenomFilter
        expiration mode r =
        (if mode ≠ "tout".data then
          if mode = "a_imprimer".data ∧ 0 < cnt_exp_for per r expiration
            then false
          else if mode = "deja".data ∧ cnt_exp_for per r expiration = 0
            then false
          else true
        else true) := by
      intro mode
      unfold apply_filter_ok
      rw [if_neg (by intro hx; exact hx.1 hn)]
      rw [if_neg (by intro hx; exact hx.1 hp)]
      rw [if_neg (by
        intro hx
        rcases hexp with h | h
        · exact hx.1 h
        · exact hx.2 h)]
    constructor
    · rw [hpass]
      rw [if_pos (by decide)]
      by_cases hc : 0 < cnt_exp_for per r expiration
      · rw [if_pos ⟨rfl, hc⟩]
        constructor
        · intro hx; cases hx
        · intro hx; omega
      · rw [if_neg (by intro hx; exact hc hx.2)]
        rw [if_neg (by intro hx; cases hx.1)]
        constructor
        · intro _; omega
        · intro _; rfl
    · rw [hpass]
      rw [if_pos (by decide)]
      rw [if_neg (by intro hx; cases hx.1)]
      by_cases hc : cnt_exp_for per r expiration = 0
      · rw [if_pos ⟨rfl, hc⟩]
        constructor
        · intro hx; cases hx
        · intro hx; omega
      · rw [if_neg (by intro hx; exact hc hx.2)]
        constructor
        · intro _; omega
        · intro _; rfl

def c8Per : ExpKey → Option Nat := fun k =>
  if k = ("dup".data, "test".data, [], "31/12/2026".data) then some 1
  else none

def c8Row : Row := ⟨"DUP".data, "TEST".data, "01/01/2000".data,
  "31/12/2026".data, [], [], [], [], 0⟩

/-- Witness for C8: the exact key (with the row's date of birth) is absent,
so the count falls back to the wildcard entry recorded without a date of
birth and the row is classified as already printed. -/
theorem apply_filter_wildcard_lookup_witness :
    cnt_exp_for c8Per c8Row "31/12/2026".data = 1 ∧
      apply_filter_ok c8Per [] [] "31/12/2026".data "deja".data c8Row =
        true := by
  have h := apply_filter_wildcard_lookup c8Per c8Row [] [] "31/12/2026".data
  have h1 : cnt_exp_for c8Per c8Row "31/12/2026".data = 1 :=
    h.2.1 (by decide) 1 (by decide)
  refine ⟨h1, ?_⟩
  exact ((h.2.2.2.2 rfl rfl (Or.inr (by decide))).2).mpr (by rw [h1]; omega)

/-! ### Merging validation updates (`imports.apply_validation_updates`) -/

/-- One validation update record; Python dict keys that are absent or `None`
are modelled as the empty string, which the merge treats identically. -/
structure Update where
  Nom : Str
  Prenom : Str
  Date_de_naissance : Str
  Expire_le : Str
  Email : Str
  Montant : Str
  ErreurValide : Str
deriving DecidableEq

/-- `imports._normalize_erreur_valide_flag` on string values (the boolean
branch of the Python helper cannot arise for string-valued rows). -/
def normalize_erreur_valide_flag (value : Str) : Str :=
  if (pyStrip value).map pyLower ∈
      ["true".data, "yes".data, "1".data, "y".data, "oui".data] then
    "true".data
  else if (pyStrip value).map pyLower ∈
      ["false".data, "no".data, "0".data, "n".data, "non".data] then
    "false".data
  else []

/-- The row-matching test of the update loop: normalized names equal, and
the dates of birth compatible (no clash of two non-blank values). -/
def updMatches (nom prenom ddnUpd : Str) (row : Row) : Bool :=
  decide (normalize_name row.Nom = nom) &&
  decide (normalize_name row.Prenom = prenom) &&
  !(decide (ddnUpd ≠ []) && decide (pyStrip row.Date_de_naissance ≠ []) &&
    decide (pyStrip row.Date_de_naissance ≠ ddnUpd))

/-- The compliance flag the merge wants on a matched row: `"false"` when the
row's pre-merge expiration is non-blank and differs from the update's,
`"true"` otherwise. -/
def mergeDesiredFlag (u : Update) (row : Row) : Str :=
  if pyStrip row.Expire_le ≠ [] ∧
      pyStrip row.Expire_le ≠ pyStrip u.Expire_le then "false".data
  else "true".data

/-- The per-row merge of `apply_validation_updates`.  The Python loop
mutates one field at a time, but every branch reads only fields it has not
yet written (the expiration compared by the flag branch is captured before
the update), so the loop amounts to this simultaneous field update;
`changed` records whether any branch fired. -/
def mergeRow (u : Update) (nom prenom : Str) (row : Row) : Row × Bool :=
  (⟨nom, prenom,
    (if pyStrip u.Date_de_naissance ≠ [] ∧
        pyStrip row.Date_de_naissance ≠ pyStrip u.Date_de_naissance then
      pyStrip u.Date_de_naissance
    else row.Date_de_naissance),
    (if pyStrip u.Expire_le ≠ [] ∧
        pyStrip row.Expire_le ≠ pyStrip u.Expire_le then
      pyStrip u.Expire_le
    else row.Expire_le),
    (if pyStrip u.Email ≠ [] ∧ pyStrip row.Email ≠ pyStrip u.Email then
      pyStrip u.Email
    else row.Email),
    (if pyStrip u.Montant ≠ [] ∧ pyStrip row.Montant ≠ pyStrip u.Montant then
      pyStrip u.Montant
    else row.Montant),
    (if pyStrip u.Expire_le ≠ [] ∧
        normalize_erreur_valide_flag row.ErreurValide ≠
          mergeDesiredFlag u row then
      mergeDesiredFlag u row
    else row.ErreurValide),
    row.Derniere, row.Compteur⟩,
  decide (row.Nom ≠ nom) || decide (row.Prenom ≠ prenom) ||
    decide (pyStrip u.Date_de_naissance ≠ [] ∧
      pyStrip row.Date_de_naissance ≠ pyStrip u.Date_de_naissance) ||
    decide (pyStrip u.Expire_le ≠ [] ∧
      pyStrip row.Expire_le ≠ pyStrip u.Expire_le) ||
    decide (pyStrip u.Email ≠ [] ∧ pyStrip row.Email ≠ pyStrip u.Email) ||
    decide (pyStrip u.Montant ≠ [] ∧
      pyStrip row.Montant ≠ pyStrip u.Montant) ||
    decide (pyStrip u.Expire_le ≠ [] ∧
      normalize_erreur_valide_flag row.ErreurValide ≠ mergeDesiredFlag u row))

/-- The fresh row appended when no existing row matches the update. -/
def newRowFromUpdate (u : Update) (nom prenom : Str) : Row :=
  ⟨nom, prenom, pyStrip u.Date_de_naissance, pyStrip u.Expire_le,
    pyStrip u.Email, pyStrip u.Montant, pyStrip u.ErreurValide, [], 0⟩

/-- Find and merge into the first matching row (the `enumerate`/`break`
search of the Python loop); `none` when no row matches. -/
def updateFirstMatch (u : Update) (nom prenom ddnUpd : Str) :
    List Row → Option (List Row × Bool)
  | [] => none
  | r :: rest =>
    if updMatches nom prenom ddnUpd r then
      some ((mergeRow u nom prenom r).1 :: rest, (mergeRow u nom prenom r).2)
    else
      match updateFirstMatch u nom prenom ddnUpd rest with
      | some (rs, c) => some (r :: rs, c)
      | none => none

/-- One iteration of `apply_validation_updates` over the update batch; the
state is (rows, updated, added). -/
def applyValidationStep (st : List Row × Nat × Nat) (u : Update) :
    List Row × Nat × Nat :=
  if normalize_name u.Nom = [] ∧ normalize_name u.Prenom = [] then st
  else
    match updateFirstMatch u (normalize_name u.Nom) (normalize_name u.Prenom)
        (pyStrip u.Date_de_naissance) st.1 with
    | some (rs, c) => (rs, st.2.1 + (if c then 1 else 0), st.2.2)
    | none =>
      (st.1 ++ [newRowFromUpdate u (normalize_name u.Nom)
        (normalize_name u.Prenom)], st.2.1, st.2.2 + 1)

/-- `imports.apply_validation_updates`: merge a batch of updates into the
roster, returning the new roster with the updated and added counts. -/
def apply_validation_updates (rows : List Row) (updates : List Update) :
    List Row × Nat × Nat :=
  updates.foldl applyValidationStep (rows, 0, 0)

def c6Row : Row := ⟨"DUP".data, "TEST".data, [], "31/12/2025".data, [], [],
  [], [], 0⟩

def c6Upd : Update := ⟨"DUP".data, "TEST".data, [], "31/12/2026".data, [],
  [], []⟩

/-- C6 counterexample: a matched row whose stored expiration conflicts with
the update's gets the compliance flag `"false"` on the first pass; on the
second pass the expirations now agree, so the flag is rewritten to `"true"`
and the second application reports one updated row, not zero. -/
theorem apply_validation_updates_not_idempotent :
    (apply_validation_updates [c6Row] [c6Upd]).2.1 = 1 ∧
      (apply_validation_updates
        (apply_validation_updates [c6Row] [c6Upd]).1 [c6Upd]).2.1 = 1 := by
  exact ⟨by decide, by decide⟩

theorem normalize_flag_true :
    normalize_erreur_valide_flag "true".data = "true".data := by decide

/-- A merged row is a fixed point of the merge when the row it came from had
a blank or agreeing expiration. -/
theorem mergeRow_stable (u : Update) (nom prenom : Str) (r : Row)
    (hnom : normalize_name nom = nom)
    (hprenom : normalize_name prenom = prenom)
    (hm : updMatches nom prenom (pyStrip u.Date_de_naissance) r = true)
    (hgood : pyStrip u.Expire_le = [] ∨ pyStrip r.Expire_le = [] ∨
      pyStrip r.Expire_le = pyStrip u.Expire_le) :
    updMatches nom prenom (pyStrip u.Date_de_naissance)
        (mergeRow u nom prenom r).1 = true ∧
      mergeRow u nom prenom (mergeRow u nom prenom r).1 =
        ((mergeRow u nom prenom r).1, false) := by
  have hD : pyStrip u.Date_de_naissance ≠ [] →
      pyStrip (mergeRow u nom prenom r).1.Date_de_naissance =
        pyStrip u.Date_de_naissance := by
    intro hvd
    show pyStrip (if _ ∧ _ then _ else _) = _
    by_cases hc : pyStrip u.Date_de_naissance ≠ [] ∧
        pyStrip r.Date_de_naissance ≠ pyStrip u.Date_de_naissance
    · rw [if_pos hc]
      exact pyStrip_idem _
    · rw [if_neg hc]
      by_contra hne
      exact hc ⟨hvd, hne⟩
  have hE : pyStrip u.Expire_le ≠ [] →
      pyStrip (mergeRow u nom prenom r).1.Expire_le =
        pyStrip u.Expire_le := by
    intro hve
    show pyStrip (if _ ∧ _ then _ else _) = _
    by_cases hc : pyStrip u.Expire_le ≠ [] ∧
        pyStrip r.Expire_le ≠ pyStrip u.Expire_le
    · rw [if_pos hc]
      exact pyStrip_idem _
    · rw [if_neg hc]
      by_contra hne
      exact hc ⟨hve, hne⟩
  have hEm : pyStrip u.Email ≠ [] →
      pyStrip (mergeRow u nom prenom r).1.Email = pyStrip u.Email := by
    intro hvm
    show pyStrip (if _ ∧ _ then _ else _) = _
    by_cases hc : pyStrip u.Email ≠ [] ∧ pyStrip r.Email ≠ pyStrip u.Email
    · rw [if_pos hc]
      exact pyStrip_idem _
    · rw [if_neg hc]
      by_contra hne
      exact hc ⟨hvm, hne⟩
  have hMo : pyStrip u.Montant ≠ [] →
      pyStrip (mergeRow u nom prenom r).1.Montant = pyStrip u.Montant := by
    intro hvmo
    show pyStrip (if _ ∧ _ then _ else _) = _
    by_cases hc : pyStrip u.Montant ≠ [] ∧
        pyStrip r.Montant ≠ pyStrip u.Montant
    · rw [if_pos hc]
      exact pyStrip_idem _
    · rw [if_neg hc]
      by_contra hne
      exact hc ⟨hvmo, hne⟩
  have hFlag : pyStrip u.Expire_le ≠ [] →
      normalize_erreur_valide_flag (mergeRow u nom prenom r).1.ErreurValide =
        "true".data := by
    intro hve
    have hdes : mergeDesiredFlag u r = "true".data := by
      unfold mergeDesiredFlag
      rcases hgood with h | h | h
      · cases hve h
      · rw [if_neg (by intro hx; exact hx.1 h)]
      · rw [if_neg (by intro hx; exact hx.2 h)]
    show normalize_erreur_valide_flag (if _ ∧ _ then _ else _) = _
    by_cases hc : pyStrip u.Expire_le ≠ [] ∧
        normalize_erreur_valide_flag r.ErreurValide ≠ mergeDesiredFlag u r
    · rw [if_pos hc, hdes]
      exact normalize_flag_true
    · rw [if_neg hc]
      by_cases hcur : normalize_erreur_valide_flag r.ErreurValide =
          mergeDesiredFlag u r
      · rw [hcur, hdes]
      · cases hc ⟨hve, hcur⟩
  have hDes' : pyStrip u.Expire_le ≠ [] →
      mergeDesiredFlag u (mergeRow u nom prenom r).1 = "true".data := by
    intro hve
    unfold mergeDesiredFlag
    rw [if_neg (by
      intro hx
      exact hx.2 (hE hve))]
  have hmm := hm
  unfold updMatches at hmm
  simp only [Bool.and_eq_true, decide_eq_true_eq, Bool.not_eq_true',
    Bool.and_eq_false_iff, decide_eq_false_iff_not] at hmm
  have hcompat : pyStrip u.Date_de_naissance ≠ [] →
      pyStrip (mergeRow u nom prenom r).1.Date_de_naissance ≠
        pyStrip u.Date_de_naissance → False := by
    intro hvd hne
    exact hne (hD hvd)
  constructor
  · unfold updMatches
    simp only [Bool.and_eq_true, decide_eq_true_eq, Bool.not_eq_true',
      Bool.and_eq_false_iff, decide_eq_false_iff_not]
    refine ⟨⟨?_, ?_⟩, ?_⟩
    · show normalize_name nom = nom
      exact hnom
    · show normalize_name prenom = prenom
      exact hprenom
    · by_cases hvd : pyStrip u.Date_de_naissance = []
      · left; left; intro hx; exact hx hvd
      · right
        intro hx
        exact hcompat hvd hx
  · have hcondD : ¬(pyStrip u.Date_de_naissance ≠ [] ∧
        pyStrip (mergeRow u nom prenom r).1.Date_de_naissance ≠
          pyStrip u.Date_de_naissance) := by
      intro hx
      exact hcompat hx.1 hx.2
    have hcondE : ¬(pyStrip u.Expire_le ≠ [] ∧
        pyStrip (mergeRow u nom prenom r).1.Expire_le ≠
          pyStrip u.Expire_le) := by
      intro hx
      exact hx.2 (hE hx.1)
    have hcondEm : ¬(pyStrip u.Email ≠ [] ∧
        pyStrip (mergeRow u nom prenom r).1.Email ≠ pyStrip u.Email) := by
      intro hx
      exact hx.2 (hEm hx.1)
    have hcondMo : ¬(pyStrip u.Montant ≠ [] ∧
        pyStrip (mergeRow u nom prenom r).1.Montant ≠
          pyStrip u.Montant) := by
      intro hx
      exact hx.2 (hMo hx.1)
    have hcondF : ¬(pyStrip u.Expire_le ≠ [] ∧
        normalize_erreur_valide_flag
          (mergeRow u nom prenom r).1.ErreurValide ≠
            mergeDesiredFlag u (mergeRow u nom prenom r).1) := by
      intro hx
      apply hx.2
      rw [hFlag hx.1, hDes' hx.1]
    set r' := (mergeRow u nom prenom r).1 with hr'def
    show mergeRow u nom prenom r' = (r', false)
    have hN : r'.Nom = nom := rfl
    have hP : r'.Prenom = prenom := rfl
    unfold mergeRow
    rw [if_neg hcondD, if_neg hcondE, if_neg hcondEm, if_neg hcondMo,
      if_neg hcondF]
    rw [Prod.mk.injEq]
    constructor
    · rfl
    · simp only [Bool.or_eq_false_iff]
      refine ⟨⟨⟨⟨⟨⟨?_, ?_⟩, ?_⟩, ?_⟩, ?_⟩, ?_⟩, ?_⟩
      · exact decide_eq_false (by intro hx; exact hx hN)
      · exact decide_eq_false (by intro hx; exact hx hP)
      · exact decide_eq_false hcondD
      · exact decide_eq_false hcondE
      · exact decide_eq_false hcondEm
      · exact decide_eq_false hcondMo
      · exact decide_eq_false hcondF

/-- The merged roster is a fixed point of the same search-and-merge when
every row the update can match carries a blank or agreeing expiration. -/
theorem updateFirstMatch_stable (u : Update) (nom prenom : Str)
    (hnom : normalize_name nom = nom)
    (hprenom : normalize_name prenom = prenom) :
    ∀ (rows rs : List Row) (c : Bool),
      (∀ r ∈ rows, updMatches nom prenom (pyStrip u.Date_de_naissance) r =
          true →
        pyStrip u.Expire_le = [] ∨ pyStrip r.Expire_le = [] ∨
          pyStrip r.Expire_le = pyStrip u.Expire_le) →
      updateFirstMatch u nom prenom (pyStrip u.Date_de_naissance) rows =
        some (rs, c) →
      updateFirstMatch u nom prenom (pyStrip u.Date_de_naissance) rs =
        some (rs, false) := by
  intro rows
  induction rows with
  | nil => intro rs c _ hfm; cases hfm
  | cons r rest ih =>
    intro rs c hcond hfm
    unfold updateFirstMatch at hfm
    by_cases hmr : updMatches nom prenom (pyStrip u.Date_de_naissance) r =
        true
    · rw [if_pos hmr] at hfm
      simp only [Option.some_inj, Prod.mk.injEq] at hfm
      obtain ⟨hrs, _⟩ := hfm
      have hst := mergeRow_stable u nom prenom r hnom hprenom hmr
        (hcond r (List.mem_cons_self _ _) hmr)
      rw [← hrs]
      unfold updateFirstMatch
      rw [if_pos hst.1, hst.2]
    · rw [if_neg hmr] at hfm
      cases hrec : updateFirstMatch u nom prenom
          (pyStrip u.Date_de_naissance) rest with
      | none => rw [hrec] at hfm; cases hfm
      | some p =>
        obtain ⟨rs', c'⟩ := p
        rw [hrec] at hfm
        simp only [Option.some_inj, Prod.mk.injEq] at hfm
        obtain ⟨hrs, _⟩ := hfm
        have hihres := ih rs' c'
          (fun x hx => hcond x (List.mem_cons_of_mem _ hx)) hrec
        rw [← hrs]
        unfold updateFirstMatch
        rw [if_neg hmr, hihres]

/-- C6 (amended: for a batch of one update that matches an existing roster
row, and whose every matchable row has a blank expiration or one equal to
the update's trimmed expiration, the second application reports zero
updated rows and leaves the roster unchanged; in general a second
application may still rewrite the ErreurValide compliance flag of a matched
row, and first-pass-added rows are likewise rewritten). -/
theorem apply_validation_updates_second_pass_clean (rows : List Row)
    (u : Update)
    (hname : ¬(normalize_name u.Nom = [] ∧ normalize_name u.Prenom = []))
    (hmatched : (updateFirstMatch u (normalize_name u.Nom)
      (normalize_name u.Prenom) (pyStrip u.Date_de_naissance)
        rows).isSome = true)
    (hcond : ∀ r ∈ rows, updMatches (normalize_name u.Nom)
        (normalize_name u.Prenom) (pyStrip u.Date_de_naissance) r = true →
      pyStrip u.Expire_le = [] ∨ pyStrip r.Expire_le = [] ∨
        pyStrip r.Expire_le = pyStrip u.Expire_le) :
    (apply_validation_updates
        (apply_validation_updates rows [u]).1 [u]).2.1 = 0 ∧
      (apply_validation_updates
        (apply_validation_updates rows [u]).1 [u]).1 =
        (apply_validation_updates rows [u]).1 := by
  rw [Option.isSome_iff_exists] at hmatched
  obtain ⟨p, hfm⟩ := hmatched
  obtain ⟨rs, c⟩ := p
  have hstable := updateFirstMatch_stable u (normalize_name u.Nom)
    (normalize_name u.Prenom) (normalize_name_idem u.Nom)
    (normalize_name_idem u.Prenom) rows rs c hcond hfm
  have hfirst : apply_validation_updates rows [u] =
      (rs, (if c then 1 else 0), 0) := by
    unfold apply_validation_updates
    rw [List.foldl_cons, List.foldl_nil]
    unfold applyValidationStep
    rw [if_neg hname]
    dsimp only
    rw [hfm]
    dsimp only
    rw [Nat.zero_add]
  rw [hfirst]
  unfold apply_validation_updates
  rw [List.foldl_cons, List.foldl_nil]
  unfold applyValidationStep
  rw [if_neg hname]
  dsimp only
  rw [hstable]
  dsimp only
  exact ⟨rfl, rfl⟩

def c6wRow : Row := ⟨"DUP".data, "TEST".data, [], "31/12/2026".data, [], [],
  "true".data, [], 0⟩

def c6wUpd : Update := ⟨"DUP".data, "TEST".data, [], "31/12/2026".data,
  "a@x".data, "45".data, []⟩

/-- Witness for the amended C6: a single update matching a row whose stored
expiration equals the update's leaves zero further changes on the second
application. -/
theorem apply_validation_updates_second_pass_clean_witness :
    (apply_validation_updates
        (apply_validation_updates [c6wRow] [c6wUpd]).1 [c6wUpd]).2.1 = 0 ∧
      (apply_validation_updates
        (apply_validation_updates [c6wRow] [c6wUpd]).1 [c6wUpd]).1 =
        (apply_validation_updates [c6wRow] [c6wUpd]).1 :=
  apply_validation_updates_second_pass_clean [c6wRow] c6wUpd (by decide)
    (by decide) (by decide)

end EtiquetteCSN
